import Mathlib

/-!
# geoos: polygon relate strategy, WKB points and multipoints

A shallow embedding of

* `algorithm/relate/polygon_relate.go` (`PolygonRelate.IntersectionMatrix`,
  `PolygonRelate.computePolygon`),
* `encoding/wkb/point.go` (`unmarshalPoints`, `unmarshalPoint`, `readPoint`,
  `Encoder.writePoint`, `unmarshalMultiPoint`, `readMultiPoint`,
  `Encoder.writeMultiPoint`), and
* `space/multi_point.go` (`Bound`, `EqualsMultiPoint`, `Equals`, `EqualsExact`,
  `UniquePoints`),

together with the parts of package `matrix` the polygon strategy calls.

Conventions.

* A Go call either returns normally or does not; the embedding returns
  `Except Fault α`.  `Fault.indexOutOfRange`, `Fault.sliceOutOfRange` and
  `Fault.typeAssertion` are Go run-time panics, the other constructors are Go
  `error` values.  Where the value returned next to an error matters, the
  result is Go's pair of the value and the error, `α × Option Fault`, inside
  `Except Fault` for the panics.
* A `float64` is carried as its 64-bit pattern (`math.Float64bits`); no
  definition below does floating-point arithmetic, and comparisons of `float64`
  values are decided on the patterns.
* Go `for ... range` loops become structural recursion over the ranged list;
  counted loops become structural recursion over the number of iterations left.
* Functions, constants and types of the repository that the embedded code uses
  and that are not among the sources are parameters of the definitions, or are
  modelled under a doc comment that says so.
-/

namespace Geoos

/-! ## Outcomes -/

/-- Ways in which a Go call of this development fails to return a value:
run-time panics (`indexOutOfRange`, `sliceOutOfRange`, `typeAssertion`) and
`error` values (`ErrNotWKB`, `ErrIncorrectGeometry`, `InvalidPatternError`,
`io.EOF`, `io.ErrUnexpectedEOF`, and the value `errors.New(text)`). -/
inductive Fault where
  | indexOutOfRange
  | sliceOutOfRange
  | typeAssertion
  | ErrNotWKB
  | ErrIncorrectGeometry
  | InvalidPatternError
  | EOF
  | ErrUnexpectedEOF
  | errorsNew (text : String)
  deriving DecidableEq, Repr

deriving instance DecidableEq for Except

/-! ## Package matrix: geometry representations -/

/-- A `float64`, carried as its 64-bit pattern. -/
abbrev Float64 := Nat

/-- Modelled from the spec: the type `matrix.Matrix`, whose declaration is not
among the sources; "a single 2D point". -/
structure Matrix where
  x : Float64
  y : Float64
  deriving DecidableEq, Repr

/-- Modelled from the spec: the type `matrix.LineMatrix`, whose declaration is
not among the sources; "an ordered sequence of points". -/
abbrev LineMatrix := List Matrix

/-- Modelled from the spec: the type `matrix.PolygonMatrix`, whose declaration
is not among the sources; "an ordered sequence of rings: ring 0 is the shell,
subsequent rings are holes". -/
abbrev PolygonMatrix := List LineMatrix

/-- Modelled from the spec: the interface `matrix.Steric`, whose declaration is
not among the sources; "a closed, polymorphic set of variants". -/
inductive Steric where
  | Matrix (m : Geoos.Matrix)
  | LineMatrix (l : Geoos.LineMatrix)
  | PolygonMatrix (p : Geoos.PolygonMatrix)
  | Collection (members : List Steric)

/-! ## Package matrix: the intersection matrix -/

/-- Modelled from the spec: the dimension values of a DE-9IM cell,
"Empty(-1 / F), Point(0), Line(1), Surface(2)". -/
inductive Dimension where
  | Empty
  | Point
  | Line
  | Surface
  deriving DecidableEq, Repr

/-- The integer code of a dimension value: `-1`, `0`, `1`, `2`. -/
def Dimension.toInt : Dimension → Int
  | .Empty => -1
  | .Point => 0
  | .Line => 1
  | .Surface => 2

/-- The dimension ordering `Empty < Point < Line < Surface`. -/
instance : LE Dimension := ⟨fun a b => a.toInt ≤ b.toInt⟩

instance (a b : Dimension) : Decidable (a ≤ b) :=
  inferInstanceAs (Decidable (a.toInt ≤ b.toInt))

/-- The larger of two dimension values under the dimension ordering. -/
def Dimension.atLeast (cell value : Dimension) : Dimension :=
  if cell ≤ value then value else cell

/-- Modelled from the spec: the three locations indexing rows and columns,
"{Interior, Boundary, Exterior}". -/
inductive Location where
  | Interior
  | Boundary
  | Exterior
  deriving DecidableEq, Repr

/-- Modelled from the spec: `matrix.IntersectionMatrix`, whose declaration is
not among the sources; "a fixed 3×3 grid of dimension values", rows indexed by
the location in the subject, columns by the location in the other geometry.
Field `IB` is the cell (Interior, Boundary), and so on. -/
structure IntersectionMatrix where
  II : Dimension
  IB : Dimension
  IE : Dimension
  BI : Dimension
  BB : Dimension
  BE : Dimension
  EI : Dimension
  EB : Dimension
  EE : Dimension
  deriving DecidableEq, Repr

namespace IntersectionMatrix

/-- Modelled from the spec: `New`, "all nine cells set to Empty". -/
def New : IntersectionMatrix :=
  ⟨.Empty, .Empty, .Empty, .Empty, .Empty, .Empty, .Empty, .Empty, .Empty⟩

/-- Reads the cell at `(row, col)`. -/
def get (m : IntersectionMatrix) : Location → Location → Dimension
  | .Interior, .Interior => m.II
  | .Interior, .Boundary => m.IB
  | .Interior, .Exterior => m.IE
  | .Boundary, .Interior => m.BI
  | .Boundary, .Boundary => m.BB
  | .Boundary, .Exterior => m.BE
  | .Exterior, .Interior => m.EI
  | .Exterior, .Boundary => m.EB
  | .Exterior, .Exterior => m.EE

/-- Overwrites the cell at `(row, col)`. -/
def set (m : IntersectionMatrix) : Location → Location → Dimension → IntersectionMatrix
  | .Interior, .Interior, v => { m with II := v }
  | .Interior, .Boundary, v => { m with IB := v }
  | .Interior, .Exterior, v => { m with IE := v }
  | .Boundary, .Interior, v => { m with BI := v }
  | .Boundary, .Boundary, v => { m with BB := v }
  | .Boundary, .Exterior, v => { m with BE := v }
  | .Exterior, .Interior, v => { m with EI := v }
  | .Exterior, .Boundary, v => { m with EB := v }
  | .Exterior, .Exterior, v => { m with EE := v }

/-- Modelled from the spec: `SetAtLeast`, "cell := max(cell, value) using the
ordering Empty < Point < Line < Surface". -/
def SetAtLeast (m : IntersectionMatrix) (row col : Location) (value : Dimension) :
    IntersectionMatrix :=
  m.set row col ((m.get row col).atLeast value)

/-- Parses one pattern character of the alphabet `F`, `0`, `1`, `2`. -/
def parseDimension (c : Char) : Option Dimension :=
  if c = 'F' then some .Empty
  else if c = '0' then some .Point
  else if c = '1' then some .Line
  else if c = '2' then some .Surface
  else none

/-- The nine cells in row-major order: "Interior-Interior, Interior-Boundary,
Interior-Exterior, Boundary-Interior, ..., Exterior-Exterior". -/
def rowMajor : List (Location × Location) :=
  [(.Interior, .Interior), (.Interior, .Boundary), (.Interior, .Exterior),
   (.Boundary, .Interior), (.Boundary, .Boundary), (.Boundary, .Exterior),
   (.Exterior, .Interior), (.Exterior, .Boundary), (.Exterior, .Exterior)]

/-- Merges the parsed values into the cells, one `SetAtLeast` per cell. -/
def mergeCells (m : IntersectionMatrix) :
    List ((Location × Location) × Dimension) → IntersectionMatrix
  | [] => m
  | ((row, col), value) :: rest => mergeCells (m.SetAtLeast row col value) rest

/-- Modelled from the spec: `SetAtLeastString`; the "pattern is exactly 9
characters over the alphabet {F, 0, 1, 2} laid out row-major", "each character
is parsed to a dimension value and merged via SetAtLeast at the corresponding
cell", and it "fails with InvalidPatternError if length ≠ 9 or a character is
outside the alphabet". -/
def SetAtLeastString (m : IntersectionMatrix) (pattern : String) :
    Except Fault IntersectionMatrix :=
  if pattern.toList.length ≠ 9 then .error .InvalidPatternError
  else
    match pattern.toList.mapM parseDimension with
    | none => .error .InvalidPatternError
    | some values => .ok (m.mergeCells (rowMajor.zip values))

/-- Modelled from the spec: `Transpose`, "rows and columns swapped
(cell[i][j] becomes cell[j][i])". -/
def Transpose (m : IntersectionMatrix) : IntersectionMatrix :=
  ⟨m.II, m.BI, m.EI, m.IB, m.BB, m.EB, m.IE, m.BE, m.EE⟩

/-- The pattern character of a dimension value: "F for Empty and the digit for
Point/Line/Surface". -/
def symbol : Dimension → Char
  | .Empty => 'F'
  | .Point => '0'
  | .Line => '1'
  | .Surface => '2'

/-- Modelled from the spec: `ToString`, "serializes to the canonical
9-character pattern, ..., row-major". -/
def ToString (m : IntersectionMatrix) : String :=
  String.mk (rowMajor.map fun rc => symbol (m.get rc.1 rc.2))

/-- Cell-wise order: every cell of `a` is at most the same cell of `b`. -/
def le (a b : IntersectionMatrix) : Prop :=
  ∀ row col : Location, a.get row col ≤ b.get row col

end IntersectionMatrix

/-! ## Package relate: what the polygon strategy calls -/

/-- Modelled from the spec: the functions of package `relate` that
`polygon_relate.go` calls and that are not among the sources, taken as
parameters: the predicates `IsIntersectionEdge` and `InPolygon`, and the
`IntersectionMatrix` methods of `PointRelate` and `LineRelate` (each applied to
the strategy's subject, its other operand and the matrix to fill). -/
structure Env where
  IsIntersectionEdge : LineMatrix → LineMatrix → Bool
  InPolygon : Matrix → LineMatrix → Bool
  PointRelate : Matrix → Steric → IntersectionMatrix → Except Fault IntersectionMatrix
  LineRelate : LineMatrix → Steric → IntersectionMatrix → Except Fault IntersectionMatrix

/-- The struct `PolygonRelate`: the embedded subject polygon and the other
operand. -/
structure PolygonRelate where
  PolygonMatrix : PolygonMatrix
  other : Steric

/-- Go indexing `xs[i]`, which panics when `i` is out of range. -/
def index {α : Type} (xs : List α) (i : Nat) : Except Fault α :=
  match xs[i]? with
  | some x => .ok x
  | none => .error .indexOutOfRange

/-- The `for i, v := range p.other.(matrix.PolygonMatrix)` loop of
`computePolygon`: `rings` are the rings still to visit, `i` the index of the
first of them and `inRing` the loop variable.  Returns the value of `inRing`
when the loop ends or breaks. -/
def scanRings (env : Env) (subject : PolygonMatrix) :
    List LineMatrix → Nat → Int → Except Fault Int
  | [], _, inRing => .ok inRing
  | v :: rest, i, inRing => do
    let l ← index subject 0
    if env.IsIntersectionEdge l v then
      .ok 1
    else if i = 0 then
      let l0 ← index l 0
      if env.InPolygon l0 v then
        scanRings env subject rest (i + 1) 0
      else
        scanRings env subject rest (i + 1) 2
    else
      let l0 ← index l 0
      if env.InPolygon l0 v then
        if inRing ≠ 2 then
          .ok 2
        else
          scanRings env subject rest (i + 1) inRing
      else
        scanRings env subject rest (i + 1) inRing

/-- The call `im.SetAtLeastString(s)` as `computePolygon` makes it: the error
result is discarded. -/
def mergePattern (im : IntersectionMatrix) (s : String) : IntersectionMatrix :=
  match im.SetAtLeastString s with
  | .ok merged => merged
  | .error _ => im

/-- The `switch inRing` of `computePolygon`. -/
def applyState (im : IntersectionMatrix) (inRing : Int) : IntersectionMatrix :=
  if inRing = 0 then mergePattern im "2FF1FF212"
  else if inRing = 1 then mergePattern im "212101212"
  else if inRing = 2 then mergePattern im "FF2FF1212"
  else im

/-- The method `PolygonRelate.computePolygon`; returns the matrix `im` points
to after the call.  The type assertion `p.other.(matrix.PolygonMatrix)` panics
when `p.other` is not a polygon. -/
def PolygonRelate.computePolygon (env : Env) (p : PolygonRelate)
    (im : IntersectionMatrix) : Except Fault IntersectionMatrix :=
  match p.other with
  | .PolygonMatrix other => do
    let inRing ← scanRings env p.PolygonMatrix other 0 (-1)
    .ok (applyState im inRing)
  | _ => .error .typeAssertion

/-- The method `PolygonRelate.IntersectionMatrix`. -/
def PolygonRelate.IntersectionMatrix (env : Env) (p : PolygonRelate)
    (im : IntersectionMatrix) : Except Fault IntersectionMatrix :=
  match p.other with
  | .Matrix m =>
    (env.PointRelate m (.PolygonMatrix p.PolygonMatrix) im).map IntersectionMatrix.Transpose
  | .LineMatrix l =>
    (env.LineRelate l (.PolygonMatrix p.PolygonMatrix) im).map IntersectionMatrix.Transpose
  | .PolygonMatrix _ => p.computePolygon env im
  | _ => .ok im

/-! ## Concrete scenes

Axis-parallel squares with small whole-number coordinates, used to evaluate the
definitions.  The predicates of a scene are given by the table of pairs on
which they are true. -/

/-- The closed ring of the square with corners `(lo, lo)` and `(hi, hi)`. -/
def square (lo hi : Float64) : LineMatrix :=
  [⟨lo, lo⟩, ⟨hi, lo⟩, ⟨hi, hi⟩, ⟨lo, hi⟩, ⟨lo, lo⟩]

/-- The bit patterns of the `float64` values `0.0`, `1.0`, ..., `8.0`. -/
def f64 : Nat → Float64
  | 0 => 0x0000000000000000
  | 1 => 0x3FF0000000000000
  | 2 => 0x4000000000000000
  | 3 => 0x4008000000000000
  | 4 => 0x4010000000000000
  | 5 => 0x4014000000000000
  | 6 => 0x4018000000000000
  | 7 => 0x401C000000000000
  | _ => 0x4020000000000000

/-- The square ring from `(a, a)` to `(b, b)`, for whole numbers `a`, `b` up to 8. -/
def sq (a b : Nat) : LineMatrix := square (f64 a) (f64 b)

/-- The environment whose `IsIntersectionEdge` is true exactly on the pairs of
`edges` (in either order), whose `InPolygon` is true exactly on the pairs of
`inside`, and whose delegate strategies return the matrix unchanged. -/
def tableEnv (edges : List (LineMatrix × LineMatrix)) (inside : List (Matrix × LineMatrix)) :
    Env where
  IsIntersectionEdge := fun a b => edges.contains (a, b) || edges.contains (b, a)
  InPolygon := fun pt ring => inside.contains (pt, ring)
  PointRelate := fun _ _ im => .ok im
  LineRelate := fun _ _ im => .ok im

/-- The string of the matrix a call produced, or `none` when the call did not
return. -/
def resultString : Except Fault IntersectionMatrix → Option String
  | .ok m => some m.ToString
  | .error _ => none

/-! ## Package wkb: decoding point arrays -/

/-- One byte of input. -/
abbrev Byte := Fin 256

/-- A `geoos.Point`, a pair of `float64` coordinates (`p[0]`, `p[1]`). -/
abbrev Point := Float64 × Float64

/-- The type `byteOrder` with its two constants, whose declaration is not among
the sources. -/
inductive byteOrder where
  | bigEndian
  | littleEndian
  deriving DecidableEq, Repr

/-- The function `math.Float64frombits`: the `float64` with the given 64-bit
pattern. -/
def Float64frombits (b : Nat) : Float64 := b

/-- The slice expression `data[k:]`, which panics when `k` exceeds the length. -/
def sliceFrom (data : List Byte) (k : Nat) : Except Fault (List Byte) :=
  if k ≤ data.length then .ok (data.drop k) else .error .sliceOutOfRange

/-- The function `binary.LittleEndian.Uint32`, which panics on fewer than 4 bytes. -/
def LittleEndian.Uint32 : List Byte → Except Fault Nat
  | b0 :: b1 :: b2 :: b3 :: _ =>
    .ok (b0.val + b1.val * 2 ^ 8 + b2.val * 2 ^ 16 + b3.val * 2 ^ 24)
  | _ => .error .indexOutOfRange

/-- The function `binary.BigEndian.Uint32`, which panics on fewer than 4 bytes. -/
def BigEndian.Uint32 : List Byte → Except Fault Nat
  | b0 :: b1 :: b2 :: b3 :: _ =>
    .ok (b3.val + b2.val * 2 ^ 8 + b1.val * 2 ^ 16 + b0.val * 2 ^ 24)
  | _ => .error .indexOutOfRange

/-- The function `binary.LittleEndian.Uint64`, which panics on fewer than 8 bytes. -/
def LittleEndian.Uint64 : List Byte → Except Fault Nat
  | b0 :: b1 :: b2 :: b3 :: b4 :: b5 :: b6 :: b7 :: _ =>
    .ok (b0.val + b1.val * 2 ^ 8 + b2.val * 2 ^ 16 + b3.val * 2 ^ 24
      + b4.val * 2 ^ 32 + b5.val * 2 ^ 40 + b6.val * 2 ^ 48 + b7.val * 2 ^ 56)
  | _ => .error .indexOutOfRange

/-- The function `binary.BigEndian.Uint64`, which panics on fewer than 8 bytes. -/
def BigEndian.Uint64 : List Byte → Except Fault Nat
  | b0 :: b1 :: b2 :: b3 :: b4 :: b5 :: b6 :: b7 :: _ =>
    .ok (b7.val + b6.val * 2 ^ 8 + b5.val * 2 ^ 16 + b4.val * 2 ^ 24
      + b3.val * 2 ^ 32 + b2.val * 2 ^ 40 + b1.val * 2 ^ 48 + b0.val * 2 ^ 56)
  | _ => .error .indexOutOfRange

/-- Modelled from the spec: `unmarshalUint32`, which is not among the sources;
the 32-bit count read from the first 4 bytes of `data` in the given byte order. -/
def unmarshalUint32 (order : byteOrder) (data : List Byte) : Except Fault Nat :=
  if order = .littleEndian then LittleEndian.Uint32 data else BigEndian.Uint32 data

/-- One of the two `for i := 0; i < int(num); i++` loops of `unmarshalPoints`,
with `uint64` the decoder of its branch: `left` iterations remain, `i` is the
loop counter and `result` the points appended so far. -/
def pointsLoop (uint64 : List Byte → Except Fault Nat) (data : List Byte) :
    Nat → Nat → List Point → Except Fault (List Point)
  | 0, _, result => .ok result
  | left + 1, i, result => do
    let xs ← sliceFrom data (16 * i)
    let x ← uint64 xs
    let ys ← sliceFrom data (16 * i + 8)
    let y ← uint64 ys
    pointsLoop uint64 data left (i + 1) (result ++ [(Float64frombits x, Float64frombits y)])

/-- The function `unmarshalPoints`.  `num` is a `uint32`, so `num*16` is taken
modulo `2^32` before the conversion to `int` (64 bits wide).  The capacity
`alloc` of the result slice does not affect the value returned and is left
out. -/
def unmarshalPoints (order : byteOrder) (data : List Byte) : Except Fault (List Point) :=
  if data.length < 4 then .error .ErrNotWKB
  else do
    let num ← unmarshalUint32 order data
    let data := data.drop 4
    if data.length < (num * 16) % 2 ^ 32 then .error .ErrNotWKB
    else if order = .littleEndian then
      pointsLoop LittleEndian.Uint64 data num 0 []
    else
      pointsLoop BigEndian.Uint64 data num 0 []

/-! ## Package wkb: decoding and encoding single points -/

/-- The number a byte sequence denotes with the least significant byte first. -/
def littleEndianValue : List Byte → Nat
  | [] => 0
  | b :: rest => b.val + 256 * littleEndianValue rest

/-- The number a byte sequence denotes with the most significant byte first. -/
def bigEndianValue (bytes : List Byte) : Nat :=
  littleEndianValue bytes.reverse

/-- The number a byte sequence denotes in the given byte order. -/
def valueIn (order : byteOrder) (bytes : List Byte) : Nat :=
  if order = .littleEndian then littleEndianValue bytes else bigEndianValue bytes

/-- The point whose X is the number in bytes 0..7 of `buf` and whose Y is the
number in bytes 8..15, both in the given byte order. -/
def pointAt (order : byteOrder) (buf : List Byte) : Point :=
  (valueIn order (buf.take 8), valueIn order ((buf.drop 8).take 8))

/-- The function `unmarshalPoint`.  The result is Go's pair of the point and
the error (`none` for `nil`); `geoos.Point{}` is the point of two `+0.0`, whose
bit patterns are `0`. -/
def unmarshalPoint (order : byteOrder) (buf : List Byte) :
    Except Fault (Point × Option Fault) :=
  if buf.length < 16 then .ok ((0, 0), some .ErrNotWKB)
  else if order = .littleEndian then do
    let x ← LittleEndian.Uint64 buf
    let ys ← sliceFrom buf 8
    let y ← LittleEndian.Uint64 ys
    .ok ((Float64frombits x, Float64frombits y), none)
  else do
    let x ← BigEndian.Uint64 buf
    let ys ← sliceFrom buf 8
    let y ← BigEndian.Uint64 ys
    .ok ((Float64frombits x, Float64frombits y), none)

/-- Go's conversion `byte(v)`: the low 8 bits of `v`. -/
def byte (v : Nat) : Byte := ⟨v % 256, Nat.mod_lt _ (by decide)⟩

/-- The function `math.Float64bits`: the 64-bit pattern of a `float64`. -/
def Float64bits (f : Float64) : Nat := f

/-- The assignments `b[0] = ..., b[1] = ...` of the given bytes, for `b` the
slice `buf[offset:]`, which shares its array with `buf`; returns `buf` after the
assignments.  Panics when the slice or an index is out of range. -/
def store (buf : List Byte) (offset : Nat) (bytes : List Byte) : Except Fault (List Byte) :=
  if buf.length < offset then .error .sliceOutOfRange
  else if buf.length < offset + bytes.length then .error .indexOutOfRange
  else .ok (buf.take offset ++ bytes ++ buf.drop (offset + bytes.length))

/-- The four bytes `PutUint32` stores for `v` in the given byte order. -/
def uint32Bytes (order : byteOrder) (v : Nat) : List Byte :=
  if order = .littleEndian then
    [byte v, byte (v / 2 ^ 8), byte (v / 2 ^ 16), byte (v / 2 ^ 24)]
  else
    [byte (v / 2 ^ 24), byte (v / 2 ^ 16), byte (v / 2 ^ 8), byte v]

/-- The eight bytes `PutUint64` stores for `v` in the given byte order. -/
def uint64Bytes (order : byteOrder) (v : Nat) : List Byte :=
  if order = .littleEndian then
    [byte v, byte (v / 2 ^ 8), byte (v / 2 ^ 16), byte (v / 2 ^ 24),
      byte (v / 2 ^ 32), byte (v / 2 ^ 40), byte (v / 2 ^ 48), byte (v / 2 ^ 56)]
  else
    [byte (v / 2 ^ 56), byte (v / 2 ^ 48), byte (v / 2 ^ 40), byte (v / 2 ^ 32),
      byte (v / 2 ^ 24), byte (v / 2 ^ 16), byte (v / 2 ^ 8), byte v]

/-- The method `PutUint32` of a `binary.ByteOrder`, applied to `buf[offset:]`. -/
def PutUint32 (order : byteOrder) (buf : List Byte) (offset : Nat) (v : Nat) :
    Except Fault (List Byte) :=
  store buf offset (uint32Bytes order v)

/-- The method `PutUint64` of a `binary.ByteOrder`, applied to `buf[offset:]`. -/
def PutUint64 (order : byteOrder) (buf : List Byte) (offset : Nat) (v : Nat) :
    Except Fault (List Byte) :=
  store buf offset (uint64Bytes order v)

/-- The constant `pointType`, whose declaration is not among the sources: the
WKB geometry type code of a point. -/
def pointType : Nat := 1

/-- The constant `multiPointType`, whose declaration is not among the sources:
the WKB geometry type code of a multipoint. -/
def multiPointType : Nat := 4

/-- The struct `Encoder`, whose declaration is not among the sources: the
scratch buffer `buf`, the byte order `order` and the writer `w`, of any type
`W`.  The `Write` method of the writer is passed to the methods below as
`write`, which returns the writer after the call and the error. -/
structure Encoder (W : Type) where
  buf : List Byte
  order : byteOrder
  w : W

/-- The `Write` method of a `bytes.Buffer`: appends the bytes and returns no
error. -/
def bufferWrite (w : List Byte) (bytes : List Byte) : List Byte × Option Fault :=
  (w ++ bytes, none)

/-- The method `Encoder.writePoint`; returns the encoder after the call and the
error. -/
def Encoder.writePoint {W : Type} (write : W → List Byte → W × Option Fault)
    (e : Encoder W) (p : Point) : Except Fault (Encoder W × Option Fault) := do
  let buf ← PutUint32 e.order e.buf 0 pointType
  let e : Encoder W := { e with buf := buf }
  let (w, err) := write e.w (e.buf.take 4)
  let e : Encoder W := { e with w := w }
  if err ≠ none then .ok (e, err)
  else do
    let buf ← PutUint64 e.order e.buf 0 (Float64bits p.1)
    let e : Encoder W := { e with buf := buf }
    let buf ← PutUint64 e.order e.buf 8 (Float64bits p.2)
    let e : Encoder W := { e with buf := buf }
    let (w, err) := write e.w e.buf
    .ok ({ e with w := w }, err)

/-! ## Package wkb: multipoints -/

/-- A `geoos.MultiPoint`, a slice of points. -/
abbrev MultiPoint := List Point

/-- The first byte of a WKB record: 1 for little endian, 0 for big endian. -/
def orderByte (order : byteOrder) : Byte :=
  if order = .littleEndian then 1 else 0

/-- Modelled from the spec: the method `Encoder.Encode` applied to a
`geoos.Point`, which is not among the sources; it emits the point "as a 21-byte
record: order byte, point type, 16 coordinate bytes": it writes the order byte
of the encoder and calls `writePoint`. -/
def Encoder.EncodePoint {W : Type} (write : W → List Byte → W × Option Fault)
    (e : Encoder W) (p : Point) : Except Fault (Encoder W × Option Fault) :=
  let (w, err) := write e.w [orderByte e.order]
  let e : Encoder W := { e with w := w }
  if err ≠ none then .ok (e, err)
  else e.writePoint write p

/-- The `for _, p := range mp` loop of `writeMultiPoint`, with `Encode` the
method `Encoder.Encode` restricted to points. -/
def writeMultiPointLoop {W : Type}
    (Encode : Encoder W → Point → Except Fault (Encoder W × Option Fault)) :
    Encoder W → List Point → Except Fault (Encoder W × Option Fault)
  | e, [] => .ok (e, none)
  | e, p :: rest => do
    let (e, err) ← Encode e p
    if err ≠ none then .ok (e, err)
    else writeMultiPointLoop Encode e rest

/-- The method `Encoder.writeMultiPoint`; `uint32(len(mp))` is the length
modulo `2^32`.  Returns the encoder after the call and the error. -/
def Encoder.writeMultiPoint {W : Type} (write : W → List Byte → W × Option Fault)
    (Encode : Encoder W → Point → Except Fault (Encoder W × Option Fault))
    (e : Encoder W) (mp : MultiPoint) : Except Fault (Encoder W × Option Fault) := do
  let buf ← PutUint32 e.order e.buf 0 multiPointType
  let e : Encoder W := { e with buf := buf }
  let buf ← PutUint32 e.order e.buf 4 (mp.length % 2 ^ 32)
  let e : Encoder W := { e with buf := buf }
  let (w, err) := write e.w (e.buf.take 8)
  let e : Encoder W := { e with w := w }
  if err ≠ none then .ok (e, err)
  else writeMultiPointLoop Encode e mp

/-- The `for i := 0; i < int(num); i++` loop of `unmarshalMultiPoint`, with
`scanPoint` the function of that name, which is not among the sources: `left`
iterations remain and `result` holds the points appended so far.  The
multipoint returned is `none` for Go's `nil`. -/
def multiPointLoop (scanPoint : List Byte → Except Fault (Point × Option Fault)) :
    List Byte → Nat → List Point → Except Fault (Option MultiPoint × Option Fault)
  | _, 0, result => .ok (some result, none)
  | data, left + 1, result => do
    let (p, err) ← scanPoint data
    match err with
    | some e => .ok (none, some e)
    | none => do
      let data ← sliceFrom data 21
      multiPointLoop scanPoint data left (result ++ [p])

/-- The function `unmarshalMultiPoint`.  The capacity `alloc` of the result
slice does not affect the value returned and is left out. -/
def unmarshalMultiPoint (scanPoint : List Byte → Except Fault (Point × Option Fault))
    (order : byteOrder) (data : List Byte) :
    Except Fault (Option MultiPoint × Option Fault) :=
  if data.length < 4 then .ok (none, some .ErrNotWKB)
  else do
    let num ← unmarshalUint32 order data
    let data := data.drop 4
    multiPointLoop scanPoint data num []

/-- The 21-byte record of a point: order byte, point type, 16 coordinate bytes. -/
def pointRecord (order : byteOrder) (p : Point) : List Byte :=
  orderByte order :: (uint32Bytes order pointType
    ++ (uint64Bytes order (Float64bits p.1) ++ uint64Bytes order (Float64bits p.2)))

/-- The records of the points of a multipoint, one after the other. -/
def pointRecords (order : byteOrder) : List Point → List Byte
  | [] => []
  | p :: rest => pointRecord order p ++ pointRecords order rest

/-- A scanner of plain point records, an instance of the parameter `scanPoint`:
it reads the order byte and the type code, and for the point type returns what
`unmarshalPoint` makes of the bytes after them. -/
def scanPointRecord (data : List Byte) : Except Fault (Point × Option Fault) :=
  if data.length < 5 then .ok ((0, 0), some .ErrNotWKB)
  else if data.head? = some 1 then
    if valueIn .littleEndian ((data.drop 1).take 4) = pointType then
      unmarshalPoint .littleEndian (data.drop 5)
    else .ok ((0, 0), some .ErrIncorrectGeometry)
  else if data.head? = some 0 then
    if valueIn .bigEndian ((data.drop 1).take 4) = pointType then
      unmarshalPoint .bigEndian (data.drop 5)
    else .ok ((0, 0), some .ErrIncorrectGeometry)
  else .ok ((0, 0), some .ErrNotWKB)

/-! ## Package space: multipoints

`space.Point` and `space.MultiPoint` are carried by the types `Point` and
`MultiPoint` above.  The methods of `Point` that `multi_point.go` calls are not
among the sources and are parameters: `pointEquals` is `Point.Equals` and
`pointEqualsExact` is `Point.EqualsExact`, each applied to a point. -/

/-- The constant `TypeMultiPoint`, whose declaration is not among the sources:
the GeoJSON type name of a multipoint. -/
def TypeMultiPoint : String := "MultiPoint"

/-- The interface `Geometry`, whose declaration is not among the sources: a
point, a multipoint, or a geometry of another kind, of which only its GeoJSON
type name matters here. -/
inductive Geometry where
  | Point (p : Geoos.Point)
  | MultiPoint (mp : Geoos.MultiPoint)
  | Other (geoJSONType : String)

/-- The method `GeoJSONType` of a geometry. -/
def Geometry.GeoJSONType : Geometry → String
  | .Point _ => "Point"
  | .MultiPoint _ => TypeMultiPoint
  | .Other geoJSONType => geoJSONType

/-- The type assertion `g.(MultiPoint)`, which panics when `g` is not a
multipoint. -/
def Geometry.assertMultiPoint : Geometry → Except Fault Geoos.MultiPoint
  | .MultiPoint mp => .ok mp
  | _ => .error .typeAssertion

/-- The method `MultiPoint.GeoJSONType`. -/
def MultiPoint.GeoJSONType (_ : MultiPoint) : String := TypeMultiPoint

/-- The method `MultiPoint.ToPointArray`. -/
def MultiPoint.ToPointArray (mp : MultiPoint) : List Point := mp

/-- The `for i, v := range mp.ToPointArray()` loop of `EqualsMultiPoint`:
`points` are the points still to visit and `i` the index of the first of
them. -/
def equalsMultiPointLoop (pointEquals : Point → Point → Bool) (multiPoint : MultiPoint) :
    List Point → Nat → Except Fault Bool
  | [], _ => .ok true
  | v :: rest, i => do
    let q ← index multiPoint i
    if !pointEquals v q then .ok false
    else equalsMultiPointLoop pointEquals multiPoint rest (i + 1)

/-- The method `MultiPoint.EqualsMultiPoint`. -/
def MultiPoint.EqualsMultiPoint (pointEquals : Point → Point → Bool)
    (mp multiPoint : MultiPoint) : Except Fault Bool :=
  if mp.length ≠ multiPoint.length then .ok false
  else equalsMultiPointLoop pointEquals multiPoint (MultiPoint.ToPointArray mp) 0

/-- The method `MultiPoint.Equals`. -/
def MultiPoint.Equals (pointEquals : Point → Point → Bool)
    (mp : MultiPoint) (g : Geometry) : Except Fault Bool :=
  if g.GeoJSONType ≠ MultiPoint.GeoJSONType mp then .ok false
  else do
    let other ← g.assertMultiPoint
    MultiPoint.EqualsMultiPoint pointEquals mp other

/-- The `for i, v := range mp` loop of `EqualsExact`: `points` are the points
still to visit and `i` the index of the first of them. -/
def equalsExactLoop (pointEqualsExact : Point → Point → Float64 → Bool) (g : Geometry)
    (tolerance : Float64) : List Point → Nat → Except Fault Bool
  | [], _ => .ok true
  | v :: rest, i => do
    let other ← g.assertMultiPoint
    let q ← index other i
    if pointEqualsExact v q tolerance then .ok false
    else equalsExactLoop pointEqualsExact g tolerance rest (i + 1)

/-- The method `MultiPoint.EqualsExact`. -/
def MultiPoint.EqualsExact (pointEqualsExact : Point → Point → Float64 → Bool)
    (mp : MultiPoint) (g : Geometry) (tolerance : Float64) : Except Fault Bool :=
  if MultiPoint.GeoJSONType mp ≠ g.GeoJSONType then .ok false
  else equalsExactLoop pointEqualsExact g tolerance mp 0

/-- The method `MultiPoint.UniquePoints`. -/
def MultiPoint.UniquePoints (mp : MultiPoint) : MultiPoint := mp

/-! ## Package space: bounds

The comparison of two `float64` values is decided on their bit patterns: a
pattern is a NaN when its exponent field is all ones and its fraction is not
zero; two patterns that are not NaN compare as the signed magnitudes they
denote (`-0.0` and `+0.0` compare equal); a NaN is not `<=` anything. -/

/-- Whether the pattern of a `float64` is a NaN. -/
def Float64.isNaN (f : Float64) : Bool :=
  decide ((f / 2 ^ 52) % 2 ^ 11 = 2047) && decide (f % 2 ^ 52 ≠ 0)

/-- The signed magnitude of a pattern that is not a NaN: the low 63 bits,
negated when the sign bit is set. -/
def Float64.key (f : Float64) : Int :=
  if (f / 2 ^ 63) % 2 = 1 then -((f % 2 ^ 63 : Nat) : Int) else ((f % 2 ^ 63 : Nat) : Int)

/-- The comparison `a <= b` of two `float64` values. -/
def Float64.le (a b : Float64) : Bool :=
  !Float64.isNaN a && !Float64.isNaN b && decide (Float64.key a ≤ Float64.key b)

/-- The struct `Bound`, whose declaration is not among the sources: the corner
`Min` and the corner `Max` of a rectangle. -/
structure Bound where
  Min : Point
  Max : Point
  deriving DecidableEq, Repr

/-- The method `MultiPoint.Bound`.  The variable `emptyBound` and the method
`Bound.Extend` are not among the sources and are parameters. -/
def MultiPoint.Bound (emptyBound : Geoos.Bound) (Extend : Geoos.Bound → Point → Geoos.Bound)
    (mp : MultiPoint) : Except Fault Geoos.Bound :=
  if mp.length = 0 then .ok emptyBound
  else do
    let first ← index mp 0
    .ok (mp.foldl Extend ⟨first, first⟩)

/-- No coordinate of the point is a NaN. -/
def Point.noNaN (p : Point) : Prop :=
  Float64.isNaN p.1 = false ∧ Float64.isNaN p.2 = false

/-- Every point of `mp` lies in the rectangle: `Min <= p <= Max` in both
coordinates. -/
def Bound.Encloses (b : Bound) (mp : List Point) : Prop :=
  ∀ p ∈ mp, Float64.le b.Min.1 p.1 = true ∧ Float64.le p.1 b.Max.1 = true
    ∧ Float64.le b.Min.2 p.2 = true ∧ Float64.le p.2 b.Max.2 = true

/-- Each of the four coordinates of the rectangle is a coordinate of some point
of `mp`. -/
def Bound.AttainedIn (b : Bound) (mp : List Point) : Prop :=
  (∃ p ∈ mp, b.Min.1 = p.1) ∧ (∃ p ∈ mp, b.Min.2 = p.2)
    ∧ (∃ p ∈ mp, b.Max.1 = p.1) ∧ (∃ p ∈ mp, b.Max.2 = p.2)

/-- The value `r` is the smaller of `a` and `c`: one of them, and `<=` both. -/
def IsMinOf (r a c : Float64) : Prop :=
  (r = a ∨ r = c) ∧ Float64.le r a = true ∧ Float64.le r c = true

/-- The value `r` is the larger of `a` and `c`: one of them, and `>=` both. -/
def IsMaxOf (r a c : Float64) : Prop :=
  (r = a ∨ r = c) ∧ Float64.le a r = true ∧ Float64.le c r = true

/-- What is assumed of the parameter `Extend`: on a bound and a point without
NaN coordinates it returns the bound whose `Min` has the smaller and whose
`Max` has the larger coordinates of the two. -/
def ExtendsByMinMax (Extend : Bound → Point → Bound) : Prop :=
  ∀ (b : Bound) (p : Point), b.Min.noNaN → b.Max.noNaN → p.noNaN →
    IsMinOf (Extend b p).Min.1 b.Min.1 p.1 ∧ IsMinOf (Extend b p).Min.2 b.Min.2 p.2
    ∧ IsMaxOf (Extend b p).Max.1 b.Max.1 p.1 ∧ IsMaxOf (Extend b p).Max.2 b.Max.2 p.2

/-- An instance of the parameter `Extend`: the coordinate-wise smaller and
larger values, chosen by `<=`. -/
def extendMinMax (b : Bound) (p : Point) : Bound :=
  ⟨(if Float64.le b.Min.1 p.1 then b.Min.1 else p.1,
    if Float64.le b.Min.2 p.2 then b.Min.2 else p.2),
   (if Float64.le p.1 b.Max.1 then b.Max.1 else p.1,
    if Float64.le p.2 b.Max.2 then b.Max.2 else p.2)⟩

/-- The pattern of a quiet NaN. -/
def quietNaN : Float64 := 0x7FF8000000000000

/-! ## Package matrix: pattern matching and the named predicates -/

/-- Modelled from the spec: one pattern character of `Matches` against one
cell; "the pattern character T means not Empty, F means Empty, a digit means
exactly that dimension, and * means any".  Any other character is not a
pattern character. -/
def matchesCell (c : Char) (cell : Dimension) : Option Bool :=
  if c = '*' then some true
  else if c = 'T' then some (decide (cell ≠ .Empty))
  else if c = 'F' then some (decide (cell = .Empty))
  else if c = '0' then some (decide (cell = .Point))
  else if c = '1' then some (decide (cell = .Line))
  else if c = '2' then some (decide (cell = .Surface))
  else none

/-- Modelled from the spec: `Matches`, which is not among the sources; a
"cell-by-cell comparison" of the matrix, row-major, with a pattern of "exactly
9 characters". -/
def IntersectionMatrix.Matches (m : IntersectionMatrix) (pattern : String) :
    Except Fault Bool :=
  if pattern.toList.length ≠ 9 then .error .InvalidPatternError
  else
    match (pattern.toList.zip IntersectionMatrix.rowMajor).mapM
        (fun cr => matchesCell cr.1 (m.get cr.2.1 cr.2.2)) with
    | none => .error .InvalidPatternError
    | some cells => .ok (cells.all id)

/-- Modelled from the spec: the named predicate Disjoint, with its standard
DE-9IM pattern. -/
def IntersectionMatrix.IsDisjoint (m : IntersectionMatrix) : Except Fault Bool :=
  m.Matches "FF*FF****"

/-- Modelled from the spec: the named predicate Touches, with its standard
DE-9IM patterns. -/
def IntersectionMatrix.IsTouches (m : IntersectionMatrix) : Except Fault Bool := do
  let a ← m.Matches "FT*******"
  let b ← m.Matches "F**T*****"
  let c ← m.Matches "F***T****"
  .ok (a || b || c)

/-- Modelled from the spec: the named predicate Overlaps, with its standard
DE-9IM pattern for two surfaces. -/
def IntersectionMatrix.IsOverlaps (m : IntersectionMatrix) : Except Fault Bool :=
  m.Matches "T*T***T**"

/-- Modelled from the spec: the named predicate Contains, with its standard
DE-9IM pattern, "T*****FF*". -/
def IntersectionMatrix.IsContains (m : IntersectionMatrix) : Except Fault Bool :=
  m.Matches "T*****FF*"

/-- Modelled from the spec: the named predicate Within, with its standard
DE-9IM pattern. -/
def IntersectionMatrix.IsWithin (m : IntersectionMatrix) : Except Fault Bool :=
  m.Matches "T*F**F***"

/-- Modelled from the spec: the named predicate Equals, with its standard
DE-9IM pattern. -/
def IntersectionMatrix.IsEquals (m : IntersectionMatrix) : Except Fault Bool :=
  m.Matches "T*F**FFF*"

/-- The four groups of the predicate consistency property, in the order
Disjoint, Touches, Overlaps, Contains-or-Within-or-Equals. -/
def IntersectionMatrix.predicateGroups (m : IntersectionMatrix) :
    Except Fault (List Bool) := do
  let disjoint ← m.IsDisjoint
  let touches ← m.IsTouches
  let overlaps ← m.IsOverlaps
  let contains ← m.IsContains
  let within ← m.IsWithin
  let equals ← m.IsEquals
  .ok [disjoint, touches, overlaps, contains || within || equals]

/-! ## Package wkb: decoding from a reader

An `io.Reader` is taken to be a reader over a byte sequence and is given by its
remaining content.  A call that reads returns, next to its value and error,
the reader and the scratch buffer as the call leaves them. -/

/-- An `io.Reader` over a byte sequence: its remaining content. -/
abbrev Reader := List Byte

/-- What a call that reads from a reader into a scratch buffer returns: the
reader and the buffer after the call, the value and the error. -/
structure Read (α : Type) where
  r : Reader
  buf : List Byte
  value : α
  err : Option Fault
  deriving DecidableEq, Repr

/-- The function `io.ReadFull`: it reads exactly `len(buf)` bytes into `buf`;
the error is `io.EOF` when no byte could be read and `io.ErrUnexpectedEOF` when
only some could. -/
def ReadFull (r : Reader) (buf : List Byte) : Read Unit :=
  if buf.length ≤ r.length then ⟨r.drop buf.length, r.take buf.length, (), none⟩
  else if r.length = 0 then ⟨[], buf, (), some .EOF⟩
  else ⟨[], r ++ buf.drop r.length, (), some .ErrUnexpectedEOF⟩

/-- The assignment `p[i] = v` to a point. -/
def Point.setIndex (p : Point) (i : Nat) (v : Float64) : Except Fault Point :=
  if i = 0 then .ok (v, p.2)
  else if i = 1 then .ok (p.1, v)
  else .error .indexOutOfRange

/-- The `for i := 0; i < 2; i++` loop of `readPoint`: `left` iterations remain,
`i` is the loop counter and `p` the point so far. -/
def readPointLoop (order : byteOrder) :
    Nat → Nat → Reader → List Byte → Point → Except Fault (Read Point)
  | 0, _, r, buf, p => .ok ⟨r, buf, p, none⟩
  | left + 1, i, r, buf, p =>
    match ReadFull r buf with
    | ⟨r, buf, _, some err⟩ => .ok ⟨r, buf, (0, 0), some err⟩
    | ⟨r, buf, _, none⟩ => do
      let v ← if order = .littleEndian then LittleEndian.Uint64 buf else BigEndian.Uint64 buf
      let p ← p.setIndex i (Float64frombits v)
      readPointLoop order left (i + 1) r buf p

/-- The function `readPoint`. -/
def readPoint (r : Reader) (order : byteOrder) (buf : List Byte) : Except Fault (Read Point) :=
  readPointLoop order 2 0 r buf (0, 0)

/-- The `for i := 0; i < int(num); i++` loop of `readMultiPoint`, with
`readByteOrderType` the function of that name, which is not among the sources:
`left` iterations remain and `result` holds the points appended so far. -/
def readMultiPointLoop
    (readByteOrderType : Reader → List Byte → Except Fault (Read (byteOrder × Nat))) :
    Nat → Reader → List Byte → List Point → Except Fault (Read (Option MultiPoint))
  | 0, r, buf, result => .ok ⟨r, buf, some result, none⟩
  | left + 1, r, buf, result => do
    let header ← readByteOrderType r buf
    match header.err with
    | some err => .ok ⟨header.r, header.buf, none, some err⟩
    | none =>
      if header.value.2 ≠ pointType then
        .ok ⟨header.r, header.buf, none,
          some (.errorsNew "expect multipoint to contains points, did not find a point")⟩
      else do
        let point ← readPoint header.r header.value.1 header.buf
        match point.err with
        | some err => .ok ⟨point.r, point.buf, none, some err⟩
        | none =>
          readMultiPointLoop readByteOrderType left point.r point.buf (result ++ [point.value])

/-- The function `readMultiPoint`, with `readUint32` and `readByteOrderType`
the functions of those names, which are not among the sources.  `readUint32`
is given the slice `buf[:4]`, which shares its array with `buf`.  The capacity
`alloc` of the result slice does not affect the value returned and is left
out. -/
def readMultiPoint
    (readUint32 : Reader → byteOrder → List Byte → Except Fault (Read Nat))
    (readByteOrderType : Reader → List Byte → Except Fault (Read (byteOrder × Nat)))
    (r : Reader) (order : byteOrder) (buf : List Byte) :
    Except Fault (Read (Option MultiPoint)) :=
  if buf.length < 4 then .error .sliceOutOfRange
  else do
    let count ← readUint32 r order (buf.take 4)
    let buf := count.buf ++ buf.drop 4
    match count.err with
    | some err => .ok ⟨count.r, buf, none, some err⟩
    | none => readMultiPointLoop readByteOrderType count.value count.r buf []

/-- The elements `readMultiPoint` is to decode: from the reader `r` and the
scratch buffer `buf`, `n` elements are read one after the other, each with a
header that reads without error and names the point type and a point that
reads without error in the byte order of its own header; `pts` are the points
in stream order, and the reader and the buffer are left as `after` and
`bufAfter`. -/
inductive ReadsElements
    (readByteOrderType : Reader → List Byte → Except Fault (Read (byteOrder × Nat))) :
    Reader → List Byte → Nat → List Point → Reader → List Byte → Prop
  | done (r : Reader) (buf : List Byte) : ReadsElements readByteOrderType r buf 0 [] r buf
  | next (r : Reader) (buf : List Byte) (header : Read (byteOrder × Nat)) (point : Read Point)
      (n : Nat) (pts : List Point) (after : Reader) (bufAfter : List Byte) :
      readByteOrderType r buf = .ok header → header.err = none →
      header.value.2 = pointType →
      readPoint header.r header.value.1 header.buf = .ok point → point.err = none →
      ReadsElements readByteOrderType point.r point.buf n pts after bufAfter →
      ReadsElements readByteOrderType r buf (n + 1) (point.value :: pts) after bufAfter

/-- An instance of the parameter `readUint32`: it fills the buffer with
`io.ReadFull` and decodes it with `unmarshalUint32`. -/
def readUint32Stream (r : Reader) (order : byteOrder) (buf : List Byte) :
    Except Fault (Read Nat) :=
  match ReadFull r buf with
  | ⟨r, buf, _, some err⟩ => .ok ⟨r, buf, 0, some err⟩
  | ⟨r, buf, _, none⟩ => do
    let v ← unmarshalUint32 order buf
    .ok ⟨r, buf, v, none⟩

/-- An instance of the parameter `readByteOrderType`: it reads the order byte
(0 for big endian, 1 for little endian, anything else is `ErrNotWKB`) and then
the type code with `readUint32Stream` into `buf[:4]`. -/
def readByteOrderTypeStream (r : Reader) (buf : List Byte) :
    Except Fault (Read (byteOrder × Nat)) :=
  if buf.length < 4 then .error .sliceOutOfRange
  else
    match r with
    | [] => .ok ⟨[], buf, (.bigEndian, 0), some .EOF⟩
    | b :: rest =>
      if b.val = 0 ∨ b.val = 1 then do
        let order := if b.val = 0 then byteOrder.bigEndian else byteOrder.littleEndian
        let typ ← readUint32Stream rest order ((b :: buf.drop 1).take 4)
        .ok ⟨typ.r, typ.buf ++ buf.drop 4, (order, typ.value), typ.err⟩
      else .ok ⟨rest, b :: buf.drop 1, (.bigEndian, 0), some .ErrNotWKB⟩

/-- A stream for the reader functions: a big-endian count of 2, the big-endian
record of the point with coordinate patterns `(1, 2)`, the little-endian record
of the point with coordinate patterns `(3, 4)`, and one byte more. -/
def twoPointStream : Reader :=
  [0, 0, 0, 2] ++ pointRecord .bigEndian (1, 2) ++ pointRecord .littleEndian (3, 4) ++ [7]

/-! ## The ring scan of computePolygon -/

section Scan

variable (env : Env) (l0 : Matrix) (ls : LineMatrix) (ps : List LineMatrix)

theorem scanRings_nil (subject : PolygonMatrix) (i : Nat) (r : Int) :
    scanRings env subject [] i r = .ok r := rfl

theorem scanRings_crossing (v : LineMatrix) (rest : List LineMatrix) (i : Nat) (r : Int)
    (h : env.IsIntersectionEdge (l0 :: ls) v = true) :
    scanRings env ((l0 :: ls) :: ps) (v :: rest) i r = .ok 1 := by
  simp [scanRings, index, h, bind, Except.bind]

theorem scanRings_shell (v : LineMatrix) (rest : List LineMatrix) (r : Int)
    (h : env.IsIntersectionEdge (l0 :: ls) v = false) :
    scanRings env ((l0 :: ls) :: ps) (v :: rest) 0 r
      = scanRings env ((l0 :: ls) :: ps) rest 1 (if env.InPolygon l0 v then 0 else 2) := by
  by_cases hin : env.InPolygon l0 v = true
  · simp [scanRings, index, h, hin, bind, Except.bind]
  · simp [scanRings, index, h, hin, bind, Except.bind]

theorem scanRings_hole_skip (v : LineMatrix) (rest : List LineMatrix) (i : Nat) (r : Int)
    (h : env.IsIntersectionEdge (l0 :: ls) v = false)
    (hin : env.InPolygon l0 v = false ∨ r = 2) :
    scanRings env ((l0 :: ls) :: ps) (v :: rest) (i + 1) r
      = scanRings env ((l0 :: ls) :: ps) rest (i + 2) r := by
  rcases hin with hin | hr
  · simp [scanRings, index, h, hin, bind, Except.bind]
  · subst hr
    by_cases hin : env.InPolygon l0 v = true
    · simp [scanRings, index, h, hin, bind, Except.bind]
    · simp [scanRings, index, h, hin, bind, Except.bind]

theorem scanRings_hole_stop (v : LineMatrix) (rest : List LineMatrix) (i : Nat) (r : Int)
    (h : env.IsIntersectionEdge (l0 :: ls) v = false)
    (hin : env.InPolygon l0 v = true) (hr : r ≠ 2) :
    scanRings env ((l0 :: ls) :: ps) (v :: rest) (i + 1) r = .ok 2 := by
  simp [scanRings, index, h, hin, hr, bind, Except.bind]

/-- Holes that neither intersect the subject's shell nor stop the scan are
passed over. -/
theorem scanRings_holes_pass (pre rest : List LineMatrix) (i : Nat) (r : Int)
    (h : ∀ v ∈ pre, env.IsIntersectionEdge (l0 :: ls) v = false
      ∧ (env.InPolygon l0 v = false ∨ r = 2)) :
    scanRings env ((l0 :: ls) :: ps) (pre ++ rest) (i + 1) r
      = scanRings env ((l0 :: ls) :: ps) rest (i + 1 + pre.length) r := by
  induction pre generalizing i with
  | nil => simp
  | cons v pre ih =>
    have hv := h v (List.mem_cons_self v pre)
    have hrest : ∀ w ∈ pre, env.IsIntersectionEdge (l0 :: ls) w = false
        ∧ (env.InPolygon l0 w = false ∨ r = 2) :=
      fun w hw => h w (List.mem_cons_of_mem v hw)
    rw [List.cons_append, scanRings_hole_skip env l0 ls ps v _ i r hv.1 hv.2, ih (i + 1) hrest]
    congr 1
    simp only [List.length_cons]
    omega

/-- A scan over holes none of which intersects the subject's shell or contains
its first vertex leaves `inRing` as it was. -/
theorem scanRings_holes_clear (holes : List LineMatrix) (i : Nat) (r : Int)
    (h : ∀ v ∈ holes, env.IsIntersectionEdge (l0 :: ls) v = false)
    (hin : (∀ v ∈ holes, env.InPolygon l0 v = false) ∨ r = 2) :
    scanRings env ((l0 :: ls) :: ps) holes (i + 1) r = .ok r := by
  have hpass := scanRings_holes_pass env l0 ls ps holes [] i r (fun v hv => ⟨h v hv, by
    rcases hin with hin | hr
    · exact Or.inl (hin v hv)
    · exact Or.inr hr⟩)
  simpa [scanRings_nil] using hpass

/-- With a non-empty subject shell the scan returns, and what it returns is
the value it started from or one of the three states. -/
theorem scanRings_total (rings : List LineMatrix) (i : Nat) (r : Int) :
    ∃ s : Int, scanRings env ((l0 :: ls) :: ps) rings i r = .ok s
      ∧ (s = 0 ∨ s = 1 ∨ s = 2 ∨ (s = r ∧ (rings = [] ∨ i ≠ 0))) := by
  induction rings generalizing i r with
  | nil => exact ⟨r, rfl, by simp⟩
  | cons v rest ih =>
    by_cases hE : env.IsIntersectionEdge (l0 :: ls) v = true
    · exact ⟨1, scanRings_crossing env l0 ls ps v rest i r hE, by simp⟩
    · have hE0 : env.IsIntersectionEdge (l0 :: ls) v = false := by simpa using hE
      cases i with
      | zero =>
        rw [scanRings_shell env l0 ls ps v rest r hE0]
        obtain ⟨s, hs, hcase⟩ := ih 1 (if env.InPolygon l0 v then 0 else 2)
        refine ⟨s, hs, ?_⟩
        rcases hcase with h | h | h | ⟨h, -⟩
        · exact Or.inl h
        · exact Or.inr (Or.inl h)
        · exact Or.inr (Or.inr (Or.inl h))
        · by_cases hin : env.InPolygon l0 v = true
          · simp [hin] at h; exact Or.inl h
          · simp [hin] at h; exact Or.inr (Or.inr (Or.inl h))
      | succ i =>
        by_cases hin : env.InPolygon l0 v = true
        · by_cases hr : r = 2
          · rw [scanRings_hole_skip env l0 ls ps v rest i r hE0 (Or.inr hr)]
            obtain ⟨s, hs, hcase⟩ := ih (i + 2) r
            refine ⟨s, hs, ?_⟩
            rcases hcase with h | h | h | ⟨h, -⟩
            · exact Or.inl h
            · exact Or.inr (Or.inl h)
            · exact Or.inr (Or.inr (Or.inl h))
            · exact Or.inr (Or.inr (Or.inr ⟨h, Or.inr (by omega)⟩))
          · exact ⟨2, scanRings_hole_stop env l0 ls ps v rest i r hE0 hin hr, by simp⟩
        · have hin0 : env.InPolygon l0 v = false := by simpa using hin
          rw [scanRings_hole_skip env l0 ls ps v rest i r hE0 (Or.inl hin0)]
          obtain ⟨s, hs, hcase⟩ := ih (i + 2) r
          refine ⟨s, hs, ?_⟩
          rcases hcase with h | h | h | ⟨h, -⟩
          · exact Or.inl h
          · exact Or.inr (Or.inl h)
          · exact Or.inr (Or.inr (Or.inl h))
          · exact Or.inr (Or.inr (Or.inr ⟨h, Or.inr (by omega)⟩))

/-- Started on a polygon with at least one ring, the scan ends in one of the
three states. -/
theorem scanRings_state (shell : LineMatrix) (holes : List LineMatrix) :
    ∃ s : Int, scanRings env ((l0 :: ls) :: ps) (shell :: holes) 0 (-1) = .ok s
      ∧ (s = 0 ∨ s = 1 ∨ s = 2) := by
  obtain ⟨s, hs, hcase⟩ := scanRings_total env l0 ls ps (shell :: holes) 0 (-1)
  refine ⟨s, hs, ?_⟩
  rcases hcase with h | h | h | ⟨-, h⟩
  · exact Or.inl h
  · exact Or.inr (Or.inl h)
  · exact Or.inr (Or.inr h)
  · simp at h

/-- An intersecting ring is reached, and the scan ends CROSSING, when no hole
before it can stop the scan. -/
theorem scanRings_reach_crossing (holes : List LineMatrix) (v : LineMatrix)
    (rest : List LineMatrix) (i : Nat) (r : Int)
    (hv : env.IsIntersectionEdge (l0 :: ls) v = true)
    (hin : r = 2 ∨ ∀ h ∈ holes, env.InPolygon l0 h = false) :
    scanRings env ((l0 :: ls) :: ps) (holes ++ v :: rest) (i + 1) r = .ok 1 := by
  induction holes generalizing i with
  | nil => simpa using scanRings_crossing env l0 ls ps v rest (i + 1) r hv
  | cons h holes ih =>
    by_cases hE : env.IsIntersectionEdge (l0 :: ls) h = true
    · simpa using scanRings_crossing env l0 ls ps h (holes ++ v :: rest) (i + 1) r hE
    · have hE0 : env.IsIntersectionEdge (l0 :: ls) h = false := by simpa using hE
      have hskip : env.InPolygon l0 h = false ∨ r = 2 := by
        rcases hin with hr | hall
        · exact Or.inr hr
        · exact Or.inl (hall h (List.mem_cons_self h holes))
      rw [List.cons_append, scanRings_hole_skip env l0 ls ps h _ i r hE0 hskip]
      apply ih
      rcases hin with hr | hall
      · exact Or.inl hr
      · exact Or.inr (fun w hw => hall w (List.mem_cons_of_mem h hw))

end Scan

/-! ## Merging the three patterns -/

theorem Dimension.le_atLeast (cell value : Dimension) : cell ≤ cell.atLeast value := by
  cases cell <;> cases value <;> decide

theorem mergePattern_contained (im : IntersectionMatrix) :
    mergePattern im "2FF1FF212"
      = ⟨im.II.atLeast .Surface, im.IB.atLeast .Empty, im.IE.atLeast .Empty,
         im.BI.atLeast .Line, im.BB.atLeast .Empty, im.BE.atLeast .Empty,
         im.EI.atLeast .Surface, im.EB.atLeast .Line, im.EE.atLeast .Surface⟩ := rfl

theorem mergePattern_crossing (im : IntersectionMatrix) :
    mergePattern im "212101212"
      = ⟨im.II.atLeast .Surface, im.IB.atLeast .Line, im.IE.atLeast .Surface,
         im.BI.atLeast .Line, im.BB.atLeast .Point, im.BE.atLeast .Line,
         im.EI.atLeast .Surface, im.EB.atLeast .Line, im.EE.atLeast .Surface⟩ := rfl

theorem mergePattern_disjoint (im : IntersectionMatrix) :
    mergePattern im "FF2FF1212"
      = ⟨im.II.atLeast .Empty, im.IB.atLeast .Empty, im.IE.atLeast .Surface,
         im.BI.atLeast .Empty, im.BB.atLeast .Empty, im.BE.atLeast .Line,
         im.EI.atLeast .Surface, im.EB.atLeast .Line, im.EE.atLeast .Surface⟩ := rfl

theorem IntersectionMatrix.le_refl (im : IntersectionMatrix) : im.le im := by
  intro row col
  show (im.get row col).toInt ≤ (im.get row col).toInt
  exact Int.le_refl _

/-- Whatever the state, the `switch` of `computePolygon` lowers no cell. -/
theorem le_applyState (im : IntersectionMatrix) (inRing : Int) :
    im.le (applyState im inRing) := by
  unfold applyState
  split_ifs
  · rw [mergePattern_contained]
    intro row col
    cases row <;> cases col <;> exact Dimension.le_atLeast _ _
  · rw [mergePattern_crossing]
    intro row col
    cases row <;> cases col <;> exact Dimension.le_atLeast _ _
  · rw [mergePattern_disjoint]
    intro row col
    cases row <;> cases col <;> exact Dimension.le_atLeast _ _
  · exact IntersectionMatrix.le_refl im

theorem computePolygon_eq (env : Env) (subject other : PolygonMatrix) (im : IntersectionMatrix)
    (s : Int) (h : scanRings env subject other 0 (-1) = .ok s) :
    PolygonRelate.computePolygon env ⟨subject, .PolygonMatrix other⟩ im
      = .ok (applyState im s) := by
  simp [PolygonRelate.computePolygon, h, bind, Except.bind]

theorem intersectionMatrix_polygon (env : Env) (subject other : PolygonMatrix)
    (im : IntersectionMatrix) :
    PolygonRelate.IntersectionMatrix env ⟨subject, .PolygonMatrix other⟩ im
      = PolygonRelate.computePolygon env ⟨subject, .PolygonMatrix other⟩ im := rfl

/-! ## Claims about the polygon strategy -/

/-- Claim C1, as stated, fails: with the small square `sq 1 2` strictly inside
the large square `sq 0 4` (no edges meet, the small square's first vertex is in
the large one, the large square's first vertex is not in the small one) the
call for (small, large) gives "2FF1FF212", whose transpose is "212FF1FF2",
while the call for (large, small) gives "FF2FF1212". -/
theorem symmetry_fails_for_contained_square :
    (PolygonRelate.IntersectionMatrix (tableEnv [] [(⟨f64 1, f64 1⟩, sq 0 4)])
        ⟨[sq 1 2], .PolygonMatrix [sq 0 4]⟩ .New).map IntersectionMatrix.Transpose
      ≠ PolygonRelate.IntersectionMatrix (tableEnv [] [(⟨f64 1, f64 1⟩, sq 0 4)])
        ⟨[sq 0 4], .PolygonMatrix [sq 1 2]⟩ .New := by
  decide

/-- Claim C2, as stated, fails: the subject `sq 2 4` lies in the shell `sq 0 8`
and in the first hole `sq 1 7` of the other polygon, whose second hole `sq 3 5`
has edges crossing the subject's; the scan stops at the first hole and the
result is "FF2FF1212", not "212101212". -/
theorem crossing_ring_after_stopping_hole_is_missed :
    (tableEnv [(sq 2 4, sq 3 5)]
        [(⟨f64 2, f64 2⟩, sq 0 8), (⟨f64 2, f64 2⟩, sq 1 7)]).IsIntersectionEdge
      (sq 2 4) (sq 3 5) = true
    ∧ (PolygonRelate.computePolygon
        (tableEnv [(sq 2 4, sq 3 5)] [(⟨f64 2, f64 2⟩, sq 0 8), (⟨f64 2, f64 2⟩, sq 1 7)])
        ⟨[sq 2 4], .PolygonMatrix [sq 0 8, sq 1 7, sq 3 5]⟩ .New).map
        IntersectionMatrix.ToString = .ok "FF2FF1212"
    ∧ (PolygonRelate.computePolygon
        (tableEnv [(sq 2 4, sq 3 5)] [(⟨f64 2, f64 2⟩, sq 0 8), (⟨f64 2, f64 2⟩, sq 1 7)])
        ⟨[sq 2 4], .PolygonMatrix [sq 0 8, sq 1 7, sq 3 5]⟩ .New).map
        IntersectionMatrix.ToString ≠ .ok "212101212" := by
  decide

/-- Claim C2, amended: for a subject P with a non-empty shell and an other
polygon Q, if a ring `v` of Q (at any position, `before` being the rings in
front of it) has `IsIntersectionEdge(P[0], v)` true, and P's first shell vertex
is not `InPolygon` of Q's shell or is not `InPolygon` of any hole of Q in front
of `v`, then `computePolygon` classifies the pair as CROSSING: from an empty
matrix the result reads "212101212". -/
theorem crossing_when_no_hole_stops_before (env : Env)
    (l0 : Matrix) (ls : LineMatrix) (ps : List LineMatrix)
    (before : List LineMatrix) (v : LineMatrix) (after : List LineMatrix)
    (hv : env.IsIntersectionEdge (l0 :: ls) v = true)
    (hstop : (∀ shell ∈ before.head?, env.InPolygon l0 shell = false)
      ∨ (∀ h ∈ before.tail, env.InPolygon l0 h = false)) :
    (PolygonRelate.computePolygon env
        ⟨(l0 :: ls) :: ps, .PolygonMatrix (before ++ v :: after)⟩ .New).map
      IntersectionMatrix.ToString = .ok "212101212" := by
  have hscan : scanRings env ((l0 :: ls) :: ps) (before ++ v :: after) 0 (-1) = .ok 1 := by
    cases before with
    | nil => simpa using scanRings_crossing env l0 ls ps v after 0 (-1) hv
    | cons shell holes =>
      by_cases hE : env.IsIntersectionEdge (l0 :: ls) shell = true
      · simpa using scanRings_crossing env l0 ls ps shell (holes ++ v :: after) 0 (-1) hE
      · have hE0 : env.IsIntersectionEdge (l0 :: ls) shell = false := by simpa using hE
        rw [List.cons_append, scanRings_shell env l0 ls ps shell _ (-1) hE0]
        apply scanRings_reach_crossing env l0 ls ps holes v after 0 _ hv
        rcases hstop with hshell | hholes
        · have : env.InPolygon l0 shell = false := hshell shell (by simp)
          simp [this]
        · exact Or.inr (by simpa using hholes)
  rw [computePolygon_eq env _ _ _ 1 hscan]
  decide

/-- Claim C2, amended, at concrete inputs, each with rings in front of the
crossing ring.  First: the subject `sq 2 4` lies in the shell `sq 0 8` of the
other polygon, whose first hole `sq 6 7` does not contain the subject's first
vertex and whose second hole `sq 3 5` has edges crossing the subject's.
Second: the subject `sq 3 5` has its first vertex outside the shell `sq 0 1`
and inside the ring `sq 2 8` in front of the crossing ring `sq 4 6`. -/
theorem crossing_when_no_hole_stops_before_witness :
    ((tableEnv [(sq 2 4, sq 3 5)] [(⟨f64 2, f64 2⟩, sq 0 8)]).IsIntersectionEdge
        (sq 2 4) (sq 3 5) = true
      ∧ (tableEnv [(sq 2 4, sq 3 5)] [(⟨f64 2, f64 2⟩, sq 0 8)]).InPolygon
          ⟨f64 2, f64 2⟩ (sq 0 8) = true
      ∧ (∀ h ∈ [sq 6 7],
          (tableEnv [(sq 2 4, sq 3 5)] [(⟨f64 2, f64 2⟩, sq 0 8)]).InPolygon
            ⟨f64 2, f64 2⟩ h = false)
      ∧ (PolygonRelate.computePolygon
          (tableEnv [(sq 2 4, sq 3 5)] [(⟨f64 2, f64 2⟩, sq 0 8)])
          ⟨[sq 2 4], .PolygonMatrix [sq 0 8, sq 6 7, sq 3 5]⟩ .New).map
        IntersectionMatrix.ToString = .ok "212101212")
    ∧ ((tableEnv [(sq 3 5, sq 4 6)] [(⟨f64 3, f64 3⟩, sq 2 8)]).IsIntersectionEdge
        (sq 3 5) (sq 4 6) = true
      ∧ (tableEnv [(sq 3 5, sq 4 6)] [(⟨f64 3, f64 3⟩, sq 2 8)]).InPolygon
          ⟨f64 3, f64 3⟩ (sq 0 1) = false
      ∧ (tableEnv [(sq 3 5, sq 4 6)] [(⟨f64 3, f64 3⟩, sq 2 8)]).InPolygon
          ⟨f64 3, f64 3⟩ (sq 2 8) = true
      ∧ (PolygonRelate.computePolygon
          (tableEnv [(sq 3 5, sq 4 6)] [(⟨f64 3, f64 3⟩, sq 2 8)])
          ⟨[sq 3 5], .PolygonMatrix [sq 0 1, sq 2 8, sq 4 6]⟩ .New).map
        IntersectionMatrix.ToString = .ok "212101212") :=
  ⟨⟨by decide, by decide, by decide,
    crossing_when_no_hole_stops_before
      (tableEnv [(sq 2 4, sq 3 5)] [(⟨f64 2, f64 2⟩, sq 0 8)])
      ⟨f64 2, f64 2⟩ [⟨f64 4, f64 2⟩, ⟨f64 4, f64 4⟩, ⟨f64 2, f64 4⟩, ⟨f64 2, f64 2⟩] []
      [sq 0 8, sq 6 7] (sq 3 5) [] (by decide) (Or.inr (by decide))⟩,
   ⟨by decide, by decide, by decide,
    crossing_when_no_hole_stops_before
      (tableEnv [(sq 3 5, sq 4 6)] [(⟨f64 3, f64 3⟩, sq 2 8)])
      ⟨f64 3, f64 3⟩ [⟨f64 5, f64 3⟩, ⟨f64 5, f64 5⟩, ⟨f64 3, f64 5⟩, ⟨f64 3, f64 3⟩] []
      [sq 0 1, sq 2 8] (sq 4 6) [] (by decide) (Or.inl (by decide))⟩⟩

/-- Claim C3: for a subject P with a non-empty shell and an other polygon Q
with at least one ring, if no ring of Q intersects P's shell, P's first shell
vertex is `InPolygon` of Q's shell ring and is not `InPolygon` of any hole ring
of Q, then `PolygonRelate.IntersectionMatrix` applied to an empty matrix yields
the matrix whose string is "2FF1FF212". -/
theorem contained_pattern (env : Env)
    (l0 : Matrix) (ls : LineMatrix) (ps : List LineMatrix)
    (shell : LineMatrix) (holes : List LineMatrix)
    (hE : ∀ v ∈ shell :: holes, env.IsIntersectionEdge (l0 :: ls) v = false)
    (hshell : env.InPolygon l0 shell = true)
    (hholes : ∀ h ∈ holes, env.InPolygon l0 h = false) :
    (PolygonRelate.IntersectionMatrix env
        ⟨(l0 :: ls) :: ps, .PolygonMatrix (shell :: holes)⟩ .New).map
      IntersectionMatrix.ToString = .ok "2FF1FF212" := by
  have hscan : scanRings env ((l0 :: ls) :: ps) (shell :: holes) 0 (-1) = .ok 0 := by
    rw [scanRings_shell env l0 ls ps shell holes (-1) (hE shell (List.mem_cons_self _ _))]
    simp only [hshell, if_true]
    exact scanRings_holes_clear env l0 ls ps holes 0 0
      (fun v hv => hE v (List.mem_cons_of_mem _ hv)) (Or.inl hholes)
  rw [intersectionMatrix_polygon, computePolygon_eq env _ _ _ 0 hscan]
  decide

/-- Claim C3 at a concrete input: the small square `sq 1 2` inside the large
square `sq 0 8`, which has the hole `sq 5 7` away from the small square. -/
theorem contained_pattern_witness :
    (∀ v ∈ [sq 0 8, sq 5 7],
        (tableEnv [] [(⟨f64 1, f64 1⟩, sq 0 8)]).IsIntersectionEdge (sq 1 2) v = false)
    ∧ (tableEnv [] [(⟨f64 1, f64 1⟩, sq 0 8)]).InPolygon ⟨f64 1, f64 1⟩ (sq 0 8) = true
    ∧ (∀ h ∈ [sq 5 7],
        (tableEnv [] [(⟨f64 1, f64 1⟩, sq 0 8)]).InPolygon ⟨f64 1, f64 1⟩ h = false)
    ∧ (PolygonRelate.IntersectionMatrix (tableEnv [] [(⟨f64 1, f64 1⟩, sq 0 8)])
        ⟨[sq 1 2], .PolygonMatrix [sq 0 8, sq 5 7]⟩ .New).map
      IntersectionMatrix.ToString = .ok "2FF1FF212" :=
  ⟨by decide, by decide, by decide,
   contained_pattern (tableEnv [] [(⟨f64 1, f64 1⟩, sq 0 8)])
    ⟨f64 1, f64 1⟩ [⟨f64 2, f64 1⟩, ⟨f64 2, f64 2⟩, ⟨f64 1, f64 2⟩, ⟨f64 1, f64 1⟩] []
    (sq 0 8) [sq 5 7] (by decide) (by decide) (by decide)⟩

/-- Claim C4: for a subject P with a non-empty shell and an other polygon Q
with at least one ring, if no ring of Q intersects P's shell and P's first
shell vertex is not `InPolygon` of Q's shell ring, then
`PolygonRelate.IntersectionMatrix` applied to an empty matrix yields the matrix
whose string is "FF2FF1212". -/
theorem disjoint_pattern (env : Env)
    (l0 : Matrix) (ls : LineMatrix) (ps : List LineMatrix)
    (shell : LineMatrix) (holes : List LineMatrix)
    (hE : ∀ v ∈ shell :: holes, env.IsIntersectionEdge (l0 :: ls) v = false)
    (hshell : env.InPolygon l0 shell = false) :
    (PolygonRelate.IntersectionMatrix env
        ⟨(l0 :: ls) :: ps, .PolygonMatrix (shell :: holes)⟩ .New).map
      IntersectionMatrix.ToString = .ok "FF2FF1212" := by
  have hscan : scanRings env ((l0 :: ls) :: ps) (shell :: holes) 0 (-1) = .ok 2 := by
    rw [scanRings_shell env l0 ls ps shell holes (-1) (hE shell (List.mem_cons_self _ _))]
    simp only [hshell, Bool.false_eq_true, if_false]
    exact scanRings_holes_clear env l0 ls ps holes 0 2
      (fun v hv => hE v (List.mem_cons_of_mem _ hv)) (Or.inr rfl)
  rw [intersectionMatrix_polygon, computePolygon_eq env _ _ _ 2 hscan]
  decide

/-- Claim C4 at a concrete input: the squares `sq 0 1` and `sq 2 3`, apart from
each other. -/
theorem disjoint_pattern_witness :
    (∀ v ∈ [sq 2 3], (tableEnv [] []).IsIntersectionEdge (sq 0 1) v = false)
    ∧ (tableEnv [] []).InPolygon ⟨f64 0, f64 0⟩ (sq 2 3) = false
    ∧ (PolygonRelate.IntersectionMatrix (tableEnv [] [])
        ⟨[sq 0 1], .PolygonMatrix [sq 2 3]⟩ .New).map
      IntersectionMatrix.ToString = .ok "FF2FF1212" :=
  ⟨by decide, by decide,
   disjoint_pattern (tableEnv [] [])
    ⟨f64 0, f64 0⟩ [⟨f64 1, f64 0⟩, ⟨f64 1, f64 1⟩, ⟨f64 0, f64 1⟩, ⟨f64 0, f64 0⟩] []
    (sq 2 3) [] (by decide) (by decide)⟩

/-- Claim C5, as stated, fails: the subject `sq 3 5` has its first vertex
outside the shell `sq 0 1` of the other polygon and inside its first hole
`sq 2 8`, and neither ring intersects the subject's shell; the scan does not
stop at that hole, reaches the ring `sq 4 6`, whose edges cross the subject's,
and the result is "212101212", not "FF2FF1212". -/
theorem hole_does_not_stop_scan_outside_shell :
    (∀ v ∈ [sq 0 1, sq 2 8],
        (tableEnv [(sq 3 5, sq 4 6)] [(⟨f64 3, f64 3⟩, sq 2 8)]).IsIntersectionEdge
          (sq 3 5) v = false)
    ∧ (tableEnv [(sq 3 5, sq 4 6)] [(⟨f64 3, f64 3⟩, sq 2 8)]).InPolygon
        ⟨f64 3, f64 3⟩ (sq 2 8) = true
    ∧ (PolygonRelate.computePolygon
        (tableEnv [(sq 3 5, sq 4 6)] [(⟨f64 3, f64 3⟩, sq 2 8)])
        ⟨[sq 3 5], .PolygonMatrix [sq 0 1, sq 2 8, sq 4 6]⟩ .New).map
        IntersectionMatrix.ToString = .ok "212101212"
    ∧ (PolygonRelate.computePolygon
        (tableEnv [(sq 3 5, sq 4 6)] [(⟨f64 3, f64 3⟩, sq 2 8)])
        ⟨[sq 3 5], .PolygonMatrix [sq 0 1, sq 2 8, sq 4 6]⟩ .New).map
        IntersectionMatrix.ToString ≠ .ok "FF2FF1212" := by
  decide

/-- Claim C5, amended: for a subject P with a non-empty shell and an other
polygon Q, if P's first shell vertex is `InPolygon` of Q's shell ring, ring
j >= 1 of Q (`hole`, with `holes` the holes in front of it) is the first hole
that contains P's first shell vertex, and no ring of Q at index <= j intersects
P's shell, then the state becomes DISJOINT and scanning stops at ring j: the
result from an empty matrix is "FF2FF1212" whatever the rings after j (`rest`)
are. -/
theorem hole_rule_inside_shell (env : Env)
    (l0 : Matrix) (ls : LineMatrix) (ps : List LineMatrix)
    (shell : LineMatrix) (holes : List LineMatrix) (hole : LineMatrix)
    (rest : List LineMatrix)
    (hE : ∀ v ∈ shell :: (holes ++ [hole]), env.IsIntersectionEdge (l0 :: ls) v = false)
    (hshell : env.InPolygon l0 shell = true)
    (hfirst : ∀ h ∈ holes, env.InPolygon l0 h = false)
    (hhole : env.InPolygon l0 hole = true) :
    (PolygonRelate.computePolygon env
        ⟨(l0 :: ls) :: ps, .PolygonMatrix (shell :: (holes ++ hole :: rest))⟩ .New).map
      IntersectionMatrix.ToString = .ok "FF2FF1212" := by
  have hscan : scanRings env ((l0 :: ls) :: ps) (shell :: (holes ++ hole :: rest)) 0 (-1)
      = .ok 2 := by
    rw [scanRings_shell env l0 ls ps shell _ (-1) (hE shell (List.mem_cons_self _ _))]
    simp only [hshell, if_true]
    rw [scanRings_holes_pass env l0 ls ps holes (hole :: rest) 0 0
      (fun v hv => ⟨hE v (List.mem_cons_of_mem _ (List.mem_append_left _ hv)),
        Or.inl (hfirst v hv)⟩),
      show 0 + 1 + holes.length = holes.length + 1 by omega]
    exact scanRings_hole_stop env l0 ls ps hole rest holes.length 0
      (hE hole (List.mem_cons_of_mem _ (List.mem_append_right _ (List.mem_singleton_self _))))
      hhole (by decide)
  rw [computePolygon_eq env _ _ _ 2 hscan]
  decide

/-- Claim C5, amended, at a concrete input: the subject `sq 2 4` in the shell
`sq 0 8` and in the hole `sq 1 7` of the other polygon, whose later ring
`sq 3 5` crosses the subject's edges. -/
theorem hole_rule_inside_shell_witness :
    (∀ v ∈ [sq 0 8, sq 1 7],
        (tableEnv [(sq 2 4, sq 3 5)]
          [(⟨f64 2, f64 2⟩, sq 0 8), (⟨f64 2, f64 2⟩, sq 1 7)]).IsIntersectionEdge
          (sq 2 4) v = false)
    ∧ (tableEnv [(sq 2 4, sq 3 5)]
          [(⟨f64 2, f64 2⟩, sq 0 8), (⟨f64 2, f64 2⟩, sq 1 7)]).InPolygon
        ⟨f64 2, f64 2⟩ (sq 0 8) = true
    ∧ (tableEnv [(sq 2 4, sq 3 5)]
          [(⟨f64 2, f64 2⟩, sq 0 8), (⟨f64 2, f64 2⟩, sq 1 7)]).InPolygon
        ⟨f64 2, f64 2⟩ (sq 1 7) = true
    ∧ (PolygonRelate.computePolygon
        (tableEnv [(sq 2 4, sq 3 5)] [(⟨f64 2, f64 2⟩, sq 0 8), (⟨f64 2, f64 2⟩, sq 1 7)])
        ⟨[sq 2 4], .PolygonMatrix [sq 0 8, sq 1 7, sq 3 5]⟩ .New).map
      IntersectionMatrix.ToString = .ok "FF2FF1212" :=
  ⟨by decide, by decide, by decide,
   hole_rule_inside_shell
    (tableEnv [(sq 2 4, sq 3 5)] [(⟨f64 2, f64 2⟩, sq 0 8), (⟨f64 2, f64 2⟩, sq 1 7)])
    ⟨f64 2, f64 2⟩ [⟨f64 4, f64 2⟩, ⟨f64 4, f64 4⟩, ⟨f64 2, f64 4⟩, ⟨f64 2, f64 2⟩] []
    (sq 0 8) [] (sq 1 7) [sq 3 5] (by decide) (by decide) (by decide) (by decide)⟩

/-- Claim C6: for every polygon subject P and matrix `im`, when `other` is a
point the result of `PolygonRelate.IntersectionMatrix(im)` is the transpose of
what `PointRelate{other, P}.IntersectionMatrix(im)` returns, and when `other`
is a line it is the transpose of what `LineRelate{other, P}.IntersectionMatrix(im)`
returns; `computePolygon` is not run in either case: the result is the same
whatever `IsIntersectionEdge` and `InPolygon` (which only `computePolygon`
calls) are, also for a subject without rings. -/
theorem delegate_and_transpose (env : Env) (P : PolygonMatrix) (im : IntersectionMatrix)
    (m : Matrix) (l : LineMatrix)
    (isEdge : LineMatrix → LineMatrix → Bool) (inPoly : Matrix → LineMatrix → Bool) :
    PolygonRelate.IntersectionMatrix env ⟨P, .Matrix m⟩ im
        = (env.PointRelate m (.PolygonMatrix P) im).map IntersectionMatrix.Transpose
    ∧ PolygonRelate.IntersectionMatrix env ⟨P, .LineMatrix l⟩ im
        = (env.LineRelate l (.PolygonMatrix P) im).map IntersectionMatrix.Transpose
    ∧ PolygonRelate.IntersectionMatrix
          ⟨isEdge, inPoly, env.PointRelate, env.LineRelate⟩ ⟨P, .Matrix m⟩ im
        = PolygonRelate.IntersectionMatrix env ⟨P, .Matrix m⟩ im
    ∧ PolygonRelate.IntersectionMatrix
          ⟨isEdge, inPoly, env.PointRelate, env.LineRelate⟩ ⟨P, .LineMatrix l⟩ im
        = PolygonRelate.IntersectionMatrix env ⟨P, .LineMatrix l⟩ im :=
  ⟨rfl, rfl, rfl, rfl⟩

/-- Claim C7: the code at the failing inputs.  For a subject with zero rings
and an other polygon with at least one ring, `PolygonRelate.IntersectionMatrix`
does not return a matrix: `p.PolygonMatrix[0]` in the first iteration of the
loop is an index out of range.  For a subject whose shell ring is empty (and
meets no edge of the other polygon's shell) it does not return either: `l[0]`
is an index out of range. -/
theorem zero_ring_subject_panics (env : Env) (v : LineMatrix) (rest : List LineMatrix)
    (im : IntersectionMatrix) :
    PolygonRelate.IntersectionMatrix env ⟨[], .PolygonMatrix (v :: rest)⟩ im
      = .error .indexOutOfRange
    ∧ PolygonRelate.IntersectionMatrix (tableEnv [] []) ⟨[[]], .PolygonMatrix (v :: rest)⟩ im
      = .error .indexOutOfRange :=
  ⟨rfl, rfl⟩

/-- Claim C8, as stated, fails: with a `matrix.Collection` as other operand the
call reports no error; it returns the matrix it was given. -/
theorem collection_operand_reports_no_error :
    PolygonRelate.IntersectionMatrix (tableEnv [] []) ⟨[sq 0 1], .Collection []⟩ .New
      = .ok .New
    ∧ ¬ ∃ e : Fault,
        PolygonRelate.IntersectionMatrix (tableEnv [] []) ⟨[sq 0 1], .Collection []⟩ .New
          = .error e := by
  refine ⟨rfl, ?_⟩
  rintro ⟨e, he⟩
  cases he

/-- Claim C8, amended: when the other operand of
`PolygonRelate.IntersectionMatrix` is a Steric kind for which the polygon
strategy has no case (a `matrix.Collection`), the call reports no error and
returns the matrix it was given, unchanged. -/
theorem collection_operand_returns_matrix_unchanged (env : Env) (P : PolygonMatrix)
    (members : List Steric) (im : IntersectionMatrix) :
    PolygonRelate.IntersectionMatrix env ⟨P, .Collection members⟩ im = .ok im := rfl

/-- Claim C9: for every initial matrix `im`, subject polygon P with a non-empty
shell and other polygon Q, `computePolygon` returns, and afterwards every one
of the nine cells of the matrix is at least its value before the call under the
order Empty < Point < Line < Surface. -/
theorem computePolygon_lowers_no_cell (env : Env)
    (l0 : Matrix) (ls : LineMatrix) (ps : List LineMatrix)
    (Q : PolygonMatrix) (im : IntersectionMatrix) :
    ∃ after : IntersectionMatrix,
      PolygonRelate.computePolygon env ⟨(l0 :: ls) :: ps, .PolygonMatrix Q⟩ im = .ok after
      ∧ ∀ row col : Location, im.get row col ≤ after.get row col := by
  obtain ⟨s, hs, -⟩ := scanRings_total env l0 ls ps Q 0 (-1)
  exact ⟨applyState im s, computePolygon_eq env _ _ _ s hs, le_applyState im s⟩

/-! ## Claims about decoding point arrays -/

/-- Claim C10: the code at the failing input.  For the little-endian data
`00 00 00 10`, the count is `num = 2^28` and no byte follows it, fewer than
`16*num`; `num*16` wraps to `0` in 32 bits, the length check passes, and the
first iteration of the loop reads past the end of the data, an index out of
range, instead of `ErrNotWKB` being returned. -/
theorem unmarshalPoints_count_overflow_panics :
    unmarshalUint32 .littleEndian [0, 0, 0, 16] = .ok (2 ^ 28)
    ∧ (List.drop 4 ([0, 0, 0, 16] : List Byte)).length < 16 * 2 ^ 28
    ∧ unmarshalPoints .littleEndian [0, 0, 0, 16] = .error .indexOutOfRange
    ∧ unmarshalPoints .littleEndian [0, 0, 0, 16] ≠ .error .ErrNotWKB := by
  decide

/-! ## Byte order decoding -/

theorem exists_eight_of_length {bs : List Byte} (h : 8 ≤ bs.length) :
    ∃ b0 b1 b2 b3 b4 b5 b6 b7 rest, bs = b0 :: b1 :: b2 :: b3 :: b4 :: b5 :: b6 :: b7 :: rest := by
  match bs, h with
  | b0 :: b1 :: b2 :: b3 :: b4 :: b5 :: b6 :: b7 :: rest, _ =>
    exact ⟨b0, b1, b2, b3, b4, b5, b6, b7, rest, rfl⟩

theorem littleEndian_Uint64_eq {bs : List Byte} (h : 8 ≤ bs.length) :
    LittleEndian.Uint64 bs = .ok (littleEndianValue (bs.take 8)) := by
  obtain ⟨b0, b1, b2, b3, b4, b5, b6, b7, rest, rfl⟩ := exists_eight_of_length h
  simp only [LittleEndian.Uint64, List.take, littleEndianValue]
  congr 1
  omega

theorem bigEndian_Uint64_eq {bs : List Byte} (h : 8 ≤ bs.length) :
    BigEndian.Uint64 bs = .ok (bigEndianValue (bs.take 8)) := by
  obtain ⟨b0, b1, b2, b3, b4, b5, b6, b7, rest, rfl⟩ := exists_eight_of_length h
  simp only [BigEndian.Uint64, List.take, bigEndianValue, littleEndianValue, List.reverse_cons,
    List.reverse_nil, List.nil_append, List.cons_append]
  congr 1
  omega

/-- On 16 bytes or more `unmarshalPoint` returns the point at the front of the
buffer, without error. -/
theorem unmarshalPoint_eq (order : byteOrder) {buf : List Byte} (h : 16 ≤ buf.length) :
    unmarshalPoint order buf = .ok (pointAt order buf, none) := by
  have h8 : 8 ≤ buf.length := by omega
  have hd : 8 ≤ (buf.drop 8).length := by simp; omega
  have hnot : ¬ buf.length < 16 := by omega
  cases order
  · simp [unmarshalPoint, hnot, sliceFrom, h8, bigEndian_Uint64_eq h8, bigEndian_Uint64_eq hd,
      bind, Except.bind, pointAt, valueIn, Float64frombits]
  · simp [unmarshalPoint, hnot, sliceFrom, h8, littleEndian_Uint64_eq h8,
      littleEndian_Uint64_eq hd, bind, Except.bind, pointAt, valueIn, Float64frombits]

theorem unmarshalPoint_short (order : byteOrder) {buf : List Byte} (h : buf.length < 16) :
    unmarshalPoint order buf = .ok ((0, 0), some .ErrNotWKB) := by
  simp [unmarshalPoint, h]

theorem pointAt_take (order : byteOrder) (buf : List Byte) (n : Nat) (h : 16 ≤ n) :
    pointAt order (buf.take n) = pointAt order buf := by
  unfold pointAt
  rw [List.take_take, List.drop_take, List.take_take]
  congr 2
  · congr 1; omega
  · congr 1; omega

/-! ## Claims about decoding single points -/

/-- Claim C12: `unmarshalPoint` returns `ErrNotWKB`, with the zero point, if
and only if the buffer has fewer than 16 bytes; for every buffer of 16 or more
bytes it succeeds, reading X from bytes 0..7 and Y from bytes 8..15 in the
given byte order and ignoring any later bytes. -/
theorem unmarshalPoint_error_iff_short (order : byteOrder) (buf : List Byte) :
    ∃ (p : Point) (err : Option Fault), unmarshalPoint order buf = .ok (p, err)
      ∧ (err = some .ErrNotWKB ↔ buf.length < 16)
      ∧ (buf.length < 16 → p = (0, 0))
      ∧ (16 ≤ buf.length → err = none
          ∧ p = (valueIn order (buf.take 8), valueIn order ((buf.drop 8).take 8))
          ∧ unmarshalPoint order (buf.take 16) = .ok (p, none)) := by
  by_cases h : buf.length < 16
  · refine ⟨(0, 0), some .ErrNotWKB, unmarshalPoint_short order h, by simp [h], fun _ => rfl, ?_⟩
    intro h16; omega
  · have h16 : 16 ≤ buf.length := by omega
    refine ⟨pointAt order buf, none, unmarshalPoint_eq order h16, by simp [h], ?_, ?_⟩
    · intro hlt; omega
    · intro _
      refine ⟨rfl, rfl, ?_⟩
      rw [unmarshalPoint_eq order (by simp; omega), pointAt_take order buf 16 (le_refl _)]

/-! ## Claims about decoding point arrays, continued -/

theorem unmarshalUint32_lt (order : byteOrder) (data : List Byte) (num : Nat)
    (h : unmarshalUint32 order data = .ok num) : num < 2 ^ 32 := by
  unfold unmarshalUint32 at h
  split_ifs at h
  · match data, h with
    | b0 :: b1 :: b2 :: b3 :: _, h =>
      simp only [LittleEndian.Uint32, Except.ok.injEq] at h
      omega
  · match data, h with
    | b0 :: b1 :: b2 :: b3 :: _, h =>
      simp only [BigEndian.Uint32, Except.ok.injEq] at h
      omega

/-- The loop of the little-endian branch appends the points found at offsets
`16*i`, `16*(i+1)`, ... of the data. -/
theorem pointsLoop_littleEndian (data : List Byte) (left i : Nat) (result : List Point)
    (h : 16 * (i + left) ≤ data.length) :
    pointsLoop LittleEndian.Uint64 data left i result
      = .ok (result ++ (List.range' i left).map
          fun j => pointAt .littleEndian (data.drop (16 * j))) := by
  induction left generalizing i result with
  | zero => simp [pointsLoop]
  | succ left ih =>
    have h1 : 16 * i ≤ data.length := by omega
    have h2 : 16 * i + 8 ≤ data.length := by omega
    have h3 : 8 ≤ (data.drop (16 * i)).length := by simp; omega
    have h4 : 8 ≤ (data.drop (16 * i + 8)).length := by simp; omega
    simp only [pointsLoop, sliceFrom, h1, h2, if_true, bind, Except.bind,
      littleEndian_Uint64_eq h3, littleEndian_Uint64_eq h4]
    rw [ih (i + 1) _ (by omega)]
    simp [List.range'_succ, pointAt, valueIn, Float64frombits, List.drop_drop, Nat.add_comm]

/-- The loop of the big-endian branch appends the points found at offsets
`16*i`, `16*(i+1)`, ... of the data. -/
theorem pointsLoop_bigEndian (data : List Byte) (left i : Nat) (result : List Point)
    (h : 16 * (i + left) ≤ data.length) :
    pointsLoop BigEndian.Uint64 data left i result
      = .ok (result ++ (List.range' i left).map
          fun j => pointAt .bigEndian (data.drop (16 * j))) := by
  induction left generalizing i result with
  | zero => simp [pointsLoop]
  | succ left ih =>
    have h1 : 16 * i ≤ data.length := by omega
    have h2 : 16 * i + 8 ≤ data.length := by omega
    have h3 : 8 ≤ (data.drop (16 * i)).length := by simp; omega
    have h4 : 8 ≤ (data.drop (16 * i + 8)).length := by simp; omega
    simp only [pointsLoop, sliceFrom, h1, h2, if_true, bind, Except.bind,
      bigEndian_Uint64_eq h3, bigEndian_Uint64_eq h4]
    rw [ih (i + 1) _ (by omega)]
    simp [List.range'_succ, pointAt, valueIn, Float64frombits, List.drop_drop, Nat.add_comm]

/-- With a count `num` and at least `16*num` bytes after it, `unmarshalPoints`
returns the points at offsets `4`, `4+16`, ... of the data. -/
theorem unmarshalPoints_eq (order : byteOrder) (data : List Byte) (num : Nat)
    (h4 : 4 ≤ data.length) (hnum : unmarshalUint32 order data = .ok num)
    (hlen : 4 + 16 * num ≤ data.length) :
    unmarshalPoints order data
      = .ok ((List.range num).map fun i => pointAt order (data.drop (4 + 16 * i))) := by
  have hnot : ¬ data.length < 4 := by omega
  have hmod : (num * 16) % 2 ^ 32 ≤ num * 16 := Nat.mod_le _ _
  have hcheck : ¬ (data.length - 4 < (num * 16) % 2 ^ 32) := by omega
  have hloop : 16 * (0 + num) ≤ (data.drop 4).length := by simp; omega
  cases order
  · simp only [unmarshalPoints, hnot, if_false, hnum, bind, Except.bind, List.length_drop, hcheck,
      reduceCtorEq]
    rw [pointsLoop_bigEndian _ _ _ _ hloop]
    simp [List.range_eq_range', List.drop_drop, Nat.add_comm]
  · simp only [unmarshalPoints, hnot, if_false, hnum, bind, Except.bind, List.length_drop, hcheck,
      if_true]
    rw [pointsLoop_littleEndian _ _ _ _ hloop]
    simp [List.range_eq_range', List.drop_drop, Nat.add_comm]

theorem unmarshalUint32_take_append (order : byteOrder) (data extra : List Byte) (n : Nat)
    (h4 : 4 ≤ data.length) (hn : 4 ≤ n) :
    unmarshalUint32 order (data.take n ++ extra) = unmarshalUint32 order data := by
  match data, h4 with
  | b0 :: b1 :: b2 :: b3 :: rest, _ =>
    obtain ⟨m, rfl⟩ : ∃ m, n = m + 4 := ⟨n - 4, by omega⟩
    cases order <;> simp [unmarshalUint32, LittleEndian.Uint32, BigEndian.Uint32, List.take]

theorem pointAt_take_append (order : byteOrder) (data extra : List Byte) (n k : Nat)
    (hk : k + 16 ≤ n) (hn : n ≤ data.length) :
    pointAt order ((data.take n ++ extra).drop k) = pointAt order (data.drop k) := by
  rw [← pointAt_take order ((data.take n ++ extra).drop k) 16 (le_refl _),
    ← pointAt_take order (data.drop k) 16 (le_refl _)]
  congr 1
  have hlen : (data.take n).length = n := by simp; omega
  rw [List.drop_append_of_le_length (by omega), List.take_append_of_le_length (by simp; omega),
    List.drop_take, List.take_take]
  congr 1
  omega

/-- Claim C13: for every byte order and every data holding a count `num`
followed by at least `16*num` bytes, `unmarshalPoints` succeeds and returns
exactly `num` points in input order, the i-th being
`unmarshalPoint(order, data[4+16*i:])`, in the little-endian and in the
big-endian branch alike; bytes after the last point are ignored. -/
theorem unmarshalPoints_returns_each_point (order : byteOrder) (data : List Byte) (num : Nat)
    (h4 : 4 ≤ data.length) (hnum : unmarshalUint32 order data = .ok num)
    (hlen : 16 * num ≤ data.length - 4) :
    ∃ pts : List Point, unmarshalPoints order data = .ok pts
      ∧ pts.length = num
      ∧ (∀ i, i < num → ∃ p, pts[i]? = some p
          ∧ unmarshalPoint order (data.drop (4 + 16 * i)) = .ok (p, none))
      ∧ (∀ extra : List Byte,
          unmarshalPoints order (data.take (4 + 16 * num) ++ extra) = .ok pts) := by
  have hlen2 : 4 + 16 * num ≤ data.length := by omega
  refine ⟨_, unmarshalPoints_eq order data num h4 hnum hlen2, by simp, ?_, ?_⟩
  · intro i hi
    refine ⟨pointAt order (data.drop (4 + 16 * i)), by simp [hi], ?_⟩
    exact unmarshalPoint_eq order (by simp; omega)
  · intro extra
    have hl : (data.take (4 + 16 * num)).length = 4 + 16 * num := by simp; omega
    rw [unmarshalPoints_eq order _ num (by simp; omega)
      (by rw [unmarshalUint32_take_append order data extra _ h4 (by omega)]; exact hnum)
      (by simp; omega)]
    congr 1
    apply List.map_congr_left
    intro i hi
    have hi2 : i < num := by simpa using hi
    exact pointAt_take_append order data extra _ _ (by omega) hlen2

/-- Claim C13 at a concrete input: a little-endian count of 1, the 16 bytes of
one point and one byte more. -/
theorem unmarshalPoints_returns_each_point_witness :
    ∃ pts : List Point,
      unmarshalPoints .littleEndian
          [1, 0, 0, 0, 1, 0, 0, 0, 0, 0, 0, 0, 2, 0, 0, 0, 0, 0, 0, 0, 9] = .ok pts
      ∧ pts.length = 1
      ∧ (∀ i, i < 1 → ∃ p, pts[i]? = some p
          ∧ unmarshalPoint .littleEndian
              (List.drop (4 + 16 * i)
                [1, 0, 0, 0, 1, 0, 0, 0, 0, 0, 0, 0, 2, 0, 0, 0, 0, 0, 0, 0, 9]) = .ok (p, none))
      ∧ (∀ extra : List Byte,
          unmarshalPoints .littleEndian
            (List.take (4 + 16 * 1)
              [1, 0, 0, 0, 1, 0, 0, 0, 0, 0, 0, 0, 2, 0, 0, 0, 0, 0, 0, 0, 9] ++ extra) = .ok pts) :=
  unmarshalPoints_returns_each_point .littleEndian
    [1, 0, 0, 0, 1, 0, 0, 0, 0, 0, 0, 0, 2, 0, 0, 0, 0, 0, 0, 0, 9] 1
    (by decide) (by decide) (by decide)

/-! ## Claims about encoding single points -/

theorem uint32Bytes_length (order : byteOrder) (v : Nat) : (uint32Bytes order v).length = 4 := by
  cases order <;> rfl

theorem uint64Bytes_length (order : byteOrder) (v : Nat) : (uint64Bytes order v).length = 8 := by
  cases order <;> rfl

theorem valueIn_uint64Bytes (order : byteOrder) (v : Nat) (h : v < 2 ^ 64) :
    valueIn order (uint64Bytes order v) = v := by
  cases order
  · simp only [valueIn, uint64Bytes, bigEndianValue, littleEndianValue, byte, List.reverse_cons,
      List.reverse_nil, List.nil_append, List.cons_append, reduceCtorEq, if_false]
    omega
  · simp only [valueIn, uint64Bytes, littleEndianValue, byte, if_true]
    omega

theorem valueIn_uint32Bytes (order : byteOrder) (v : Nat) (h : v < 2 ^ 32) :
    valueIn order (uint32Bytes order v) = v := by
  cases order
  · simp only [valueIn, uint32Bytes, bigEndianValue, littleEndianValue, byte, List.reverse_cons,
      List.reverse_nil, List.nil_append, List.cons_append, reduceCtorEq, if_false]
    omega
  · simp only [valueIn, uint32Bytes, littleEndianValue, byte, if_true]
    omega

/-- The point at the front of the bytes of two coordinates is that pair of
coordinates. -/
theorem pointAt_coordinate_bytes (order : byteOrder) (x y : Nat) (rest : List Byte)
    (hx : x < 2 ^ 64) (hy : y < 2 ^ 64) :
    pointAt order (uint64Bytes order x ++ (uint64Bytes order y ++ rest)) = (x, y) := by
  have lx := uint64Bytes_length order x
  have ly := uint64Bytes_length order y
  unfold pointAt
  rw [List.take_append_of_le_length (by omega), List.take_of_length_le (by omega),
    List.drop_append_of_le_length (by omega), List.drop_of_length_le (by omega),
    List.nil_append, List.take_append_of_le_length (by omega), List.take_of_length_le (by omega),
    valueIn_uint64Bytes order x hx, valueIn_uint64Bytes order y hy]

theorem exists_sixteen_of_length {bs : List Byte} (h : bs.length = 16) :
    ∃ b0 b1 b2 b3 b4 b5 b6 b7 b8 b9 b10 b11 b12 b13 b14 b15,
      bs = [b0, b1, b2, b3, b4, b5, b6, b7, b8, b9, b10, b11, b12, b13, b14, b15] := by
  match bs, h with
  | [b0, b1, b2, b3, b4, b5, b6, b7, b8, b9, b10, b11, b12, b13, b14, b15], _ =>
    exact ⟨b0, b1, b2, b3, b4, b5, b6, b7, b8, b9, b10, b11, b12, b13, b14, b15, rfl⟩

/-- What `writePoint` does with a 16-byte scratch buffer and a writer that
accepts every byte: it appends the type field and the two coordinates, and
leaves the coordinates in the scratch buffer. -/
theorem writePoint_buffer (e : Encoder (List Byte)) (p : Point) (h : e.buf.length = 16) :
    Encoder.writePoint bufferWrite e p
      = .ok (⟨uint64Bytes e.order (Float64bits p.1) ++ uint64Bytes e.order (Float64bits p.2),
              e.order,
              e.w ++ uint32Bytes e.order pointType
                ++ (uint64Bytes e.order (Float64bits p.1)
                  ++ uint64Bytes e.order (Float64bits p.2))⟩, none) := by
  obtain ⟨buf, order, w⟩ := e
  obtain ⟨b0, b1, b2, b3, b4, b5, b6, b7, b8, b9, b10, b11, b12, b13, b14, b15, rfl⟩ :=
    exists_sixteen_of_length h
  cases order <;>
    simp [Encoder.writePoint, PutUint32, PutUint64, store, bufferWrite, bind, Except.bind,
      uint32Bytes, uint64Bytes]

/-- Claim C11: for every point `p` (its two coordinates taken as 64-bit
patterns) and each byte order, an encoder with that byte order, a 16-byte
scratch buffer and a writer that accepts every byte emits in `writePoint` a
4-byte type field and then 16 coordinate bytes, and `unmarshalPoint` with the
same byte order decodes those 16 bytes to exactly `p`. -/
theorem writePoint_unmarshalPoint_round_trip (order : byteOrder) (e : Encoder (List Byte))
    (p : Point) (horder : e.order = order) (hbuf : e.buf.length = 16)
    (hx : p.1 < 2 ^ 64) (hy : p.2 < 2 ^ 64) :
    ∃ (typeField coords : List Byte) (after : Encoder (List Byte)),
      Encoder.writePoint bufferWrite e p = .ok (after, none)
      ∧ after.w = e.w ++ typeField ++ coords
      ∧ typeField.length = 4 ∧ coords.length = 16
      ∧ unmarshalPoint order coords = .ok (p, none) := by
  subst horder
  refine ⟨uint32Bytes e.order pointType,
    uint64Bytes e.order (Float64bits p.1) ++ uint64Bytes e.order (Float64bits p.2), _,
    writePoint_buffer e p hbuf, rfl, uint32Bytes_length _ _, ?_, ?_⟩
  · simp [uint64Bytes_length]
  · rw [unmarshalPoint_eq e.order (by simp [uint64Bytes_length])]
    have hp := pointAt_coordinate_bytes e.order (Float64bits p.1) (Float64bits p.2) [] hx hy
    simp only [List.append_nil] at hp
    rw [hp]
    rfl

/-- Claim C11 at a concrete input: the point `(1.0, 2.0)` written in little
endian by an encoder whose scratch buffer holds 16 zero bytes. -/
theorem writePoint_unmarshalPoint_round_trip_witness :
    ∃ (typeField coords : List Byte) (after : Encoder (List Byte)),
      Encoder.writePoint bufferWrite
          ⟨[0, 0, 0, 0, 0, 0, 0, 0, 0, 0, 0, 0, 0, 0, 0, 0], .littleEndian, []⟩
          (f64 1, f64 2) = .ok (after, none)
      ∧ after.w = [] ++ typeField ++ coords
      ∧ typeField.length = 4 ∧ coords.length = 16
      ∧ unmarshalPoint .littleEndian coords = .ok ((f64 1, f64 2), none) :=
  writePoint_unmarshalPoint_round_trip .littleEndian
    ⟨[0, 0, 0, 0, 0, 0, 0, 0, 0, 0, 0, 0, 0, 0, 0, 0], .littleEndian, []⟩ (f64 1, f64 2)
    rfl (by decide) (by decide) (by decide)

/-! ## Claims about multipoints in WKB -/

theorem pointRecord_length (order : byteOrder) (p : Point) :
    (pointRecord order p).length = 21 := by
  simp [pointRecord, uint32Bytes_length, uint64Bytes_length]

theorem pointRecords_length (order : byteOrder) (mp : List Point) :
    (pointRecords order mp).length = 21 * mp.length := by
  induction mp with
  | nil => rfl
  | cons p rest ih =>
    simp only [pointRecords, List.length_append, pointRecord_length, ih, List.length_cons]
    omega

/-- What `Encode` does for a point with a 16-byte scratch buffer and a writer
that accepts every byte: it appends the record of the point. -/
theorem EncodePoint_buffer (e : Encoder (List Byte)) (p : Point) (h : e.buf.length = 16) :
    Encoder.EncodePoint bufferWrite e p
      = .ok (⟨uint64Bytes e.order (Float64bits p.1) ++ uint64Bytes e.order (Float64bits p.2),
              e.order, e.w ++ pointRecord e.order p⟩, none) := by
  have hw := writePoint_buffer ⟨e.buf, e.order, e.w ++ [orderByte e.order]⟩ p h
  simp only [Encoder.EncodePoint, bufferWrite, ne_eq, not_true_eq_false, if_false]
  rw [hw]
  simp [pointRecord]

theorem writeMultiPointLoop_buffer (mp : List Point) (e : Encoder (List Byte))
    (h : e.buf.length = 16) :
    ∃ buf : List Byte, buf.length = 16
      ∧ writeMultiPointLoop (Encoder.EncodePoint bufferWrite) e mp
        = .ok (⟨buf, e.order, e.w ++ pointRecords e.order mp⟩, none) := by
  induction mp generalizing e with
  | nil => exact ⟨e.buf, h, by simp [writeMultiPointLoop, pointRecords]⟩
  | cons p rest ih =>
    obtain ⟨buf, hbuf, hloop⟩ := ih
      ⟨uint64Bytes e.order (Float64bits p.1) ++ uint64Bytes e.order (Float64bits p.2),
        e.order, e.w ++ pointRecord e.order p⟩ (by simp [uint64Bytes_length])
    refine ⟨buf, hbuf, ?_⟩
    simp only [writeMultiPointLoop, EncodePoint_buffer e p h, bind, Except.bind, ne_eq,
      not_true_eq_false, if_false]
    rw [hloop]
    simp [pointRecords]

/-- What `writeMultiPoint` emits with a 16-byte scratch buffer and a writer
that accepts every byte: the type field, the count and the records of the
points. -/
theorem writeMultiPoint_buffer (e : Encoder (List Byte)) (mp : MultiPoint)
    (h : e.buf.length = 16) :
    ∃ buf : List Byte,
      Encoder.writeMultiPoint bufferWrite (Encoder.EncodePoint bufferWrite) e mp
        = .ok (⟨buf, e.order, e.w ++ uint32Bytes e.order multiPointType
            ++ (uint32Bytes e.order (mp.length % 2 ^ 32) ++ pointRecords e.order mp)⟩, none) := by
  obtain ⟨buf, order, w⟩ := e
  obtain ⟨b0, b1, b2, b3, b4, b5, b6, b7, b8, b9, b10, b11, b12, b13, b14, b15, rfl⟩ :=
    exists_sixteen_of_length h
  obtain ⟨buf, -, hloop⟩ := writeMultiPointLoop_buffer mp
    ⟨uint32Bytes order multiPointType ++ uint32Bytes order (mp.length % 2 ^ 32)
        ++ [b8, b9, b10, b11, b12, b13, b14, b15], order,
      w ++ (uint32Bytes order multiPointType ++ uint32Bytes order (mp.length % 2 ^ 32))⟩
    (by simp [uint32Bytes_length])
  refine ⟨buf, ?_⟩
  have l1 := uint32Bytes_length order multiPointType
  have l2 := uint32Bytes_length order (mp.length % 2 ^ 32)
  have hstore1 : store [b0, b1, b2, b3, b4, b5, b6, b7, b8, b9, b10, b11, b12, b13, b14, b15] 0
      (uint32Bytes order multiPointType)
        = .ok (uint32Bytes order multiPointType
            ++ [b4, b5, b6, b7, b8, b9, b10, b11, b12, b13, b14, b15]) := by
    cases order <;> simp [store, uint32Bytes]
  have hstore2 : store (uint32Bytes order multiPointType
        ++ [b4, b5, b6, b7, b8, b9, b10, b11, b12, b13, b14, b15]) 4
      (uint32Bytes order (mp.length % 2 ^ 32))
        = .ok (uint32Bytes order multiPointType ++ uint32Bytes order (mp.length % 2 ^ 32)
            ++ [b8, b9, b10, b11, b12, b13, b14, b15]) := by
    cases order <;> simp [store, uint32Bytes]
  simp only [Encoder.writeMultiPoint, PutUint32, hstore1, hstore2, bind, Except.bind,
    bufferWrite, ne_eq, not_true_eq_false, if_false]
  have htake : List.take 8 (uint32Bytes order multiPointType
        ++ uint32Bytes order (mp.length % 2 ^ 32) ++ [b8, b9, b10, b11, b12, b13, b14, b15])
      = uint32Bytes order multiPointType ++ uint32Bytes order (mp.length % 2 ^ 32) := by
    cases order <;> simp [uint32Bytes]
  rw [htake, hloop]
  simp

theorem unmarshalUint32_uint32Bytes (order : byteOrder) (v : Nat) (rest : List Byte)
    (h : v < 2 ^ 32) :
    unmarshalUint32 order (uint32Bytes order v ++ rest) = .ok v := by
  cases order
  · simp only [unmarshalUint32, uint32Bytes, reduceCtorEq, if_false, List.cons_append,
      List.nil_append, BigEndian.Uint32, byte, Except.ok.injEq]
    omega
  · simp only [unmarshalUint32, uint32Bytes, if_true, List.cons_append,
      List.nil_append, LittleEndian.Uint32, byte, Except.ok.injEq]
    omega

/-- The decoding loop run on the records of `mp` returns the points of `mp`
after those it started with, when `scanPoint` decodes point records. -/
theorem multiPointLoop_pointRecords
    (scanPoint : List Byte → Except Fault (Point × Option Fault)) (order : byteOrder)
    (hscan : ∀ (o : byteOrder) (tail : List Byte),
      scanPoint (orderByte o :: (uint32Bytes o pointType ++ tail)) = unmarshalPoint o tail)
    (mp : List Point) (result : List Point)
    (hmp : ∀ p ∈ mp, p.1 < 2 ^ 64 ∧ p.2 < 2 ^ 64) :
    multiPointLoop scanPoint (pointRecords order mp) mp.length result
      = .ok (some (result ++ mp), none) := by
  induction mp generalizing result with
  | nil => simp [multiPointLoop]
  | cons p rest ih =>
    obtain ⟨hx, hy⟩ := hmp p (List.mem_cons_self _ _)
    have hrec : pointRecords order (p :: rest)
        = orderByte order :: (uint32Bytes order pointType
          ++ (uint64Bytes order (Float64bits p.1)
            ++ (uint64Bytes order (Float64bits p.2) ++ pointRecords order rest))) := by
      simp [pointRecords, pointRecord]
    have hpt : unmarshalPoint order (uint64Bytes order (Float64bits p.1)
          ++ (uint64Bytes order (Float64bits p.2) ++ pointRecords order rest))
        = .ok (p, none) := by
      rw [unmarshalPoint_eq order (by simp [uint64Bytes_length]; omega),
        pointAt_coordinate_bytes order (Float64bits p.1) (Float64bits p.2) _ hx hy]
      rfl
    have hslice : sliceFrom (pointRecords order (p :: rest)) 21
        = .ok (pointRecords order rest) := by
      have hl := pointRecord_length order p
      simp only [sliceFrom, pointRecords, List.length_append, hl]
      rw [if_pos (by omega), List.drop_append_of_le_length (by omega),
        List.drop_of_length_le (by omega), List.nil_append]
    simp only [List.length_cons, multiPointLoop, bind, Except.bind]
    rw [hrec, hscan, hpt]
    simp only
    rw [← hrec, hslice]
    simp only
    rw [ih (result ++ [p]) (fun q hq => hmp q (List.mem_cons_of_mem _ hq))]
    simp

/-- Claim C14: for every multipoint `mp` with fewer than `2^32` points (the
coordinates taken as 64-bit patterns) and each byte order, an encoder with that
byte order, a 16-byte scratch buffer and a writer that accepts every byte emits
in `writeMultiPoint` a 4-byte type field and then the 4-byte count and one
21-byte record per point (order byte, point type, 16 coordinate bytes); with a
`scanPoint` that decodes point records, `unmarshalMultiPoint` with the same
byte order decodes the bytes after the type field to `mp`, the same points in
the same order. -/
theorem writeMultiPoint_unmarshalMultiPoint_round_trip
    (scanPoint : List Byte → Except Fault (Point × Option Fault)) (order : byteOrder)
    (e : Encoder (List Byte)) (mp : MultiPoint)
    (hscan : ∀ (o : byteOrder) (tail : List Byte),
      scanPoint (orderByte o :: (uint32Bytes o pointType ++ tail)) = unmarshalPoint o tail)
    (horder : e.order = order) (hbuf : e.buf.length = 16) (hlen : mp.length < 2 ^ 32)
    (hmp : ∀ p ∈ mp, p.1 < 2 ^ 64 ∧ p.2 < 2 ^ 64) :
    ∃ (typeField body : List Byte) (after : Encoder (List Byte)),
      Encoder.writeMultiPoint bufferWrite (Encoder.EncodePoint bufferWrite) e mp
        = .ok (after, none)
      ∧ after.w = e.w ++ typeField ++ body
      ∧ typeField.length = 4
      ∧ body.length = 4 + 21 * mp.length
      ∧ unmarshalMultiPoint scanPoint order body = .ok (some mp, none) := by
  subst horder
  obtain ⟨buf, hwrite⟩ := writeMultiPoint_buffer e mp hbuf
  refine ⟨uint32Bytes e.order multiPointType,
    uint32Bytes e.order (mp.length % 2 ^ 32) ++ pointRecords e.order mp, _, hwrite, rfl,
    uint32Bytes_length _ _, ?_, ?_⟩
  · simp [uint32Bytes_length, pointRecords_length]
  · have hmod : mp.length % 2 ^ 32 = mp.length := Nat.mod_eq_of_lt hlen
    have hl := uint32Bytes_length e.order mp.length
    rw [hmod]
    simp only [unmarshalMultiPoint, List.length_append, hl,
      show ¬ (4 + (pointRecords e.order mp).length < 4) by omega, if_false,
      unmarshalUint32_uint32Bytes e.order mp.length _ hlen, bind, Except.bind]
    rw [List.drop_append_of_le_length (by omega), List.drop_of_length_le (by omega),
      List.nil_append, multiPointLoop_pointRecords scanPoint e.order hscan mp [] hmp]
    simp

/-- Claim C14 at a concrete input: the multipoint of `(1.0, 2.0)` and
`(3.0, 4.0)`, written in big endian and scanned record by record. -/
theorem writeMultiPoint_unmarshalMultiPoint_round_trip_witness :
    ∃ (typeField body : List Byte) (after : Encoder (List Byte)),
      Encoder.writeMultiPoint bufferWrite (Encoder.EncodePoint bufferWrite)
          ⟨[0, 0, 0, 0, 0, 0, 0, 0, 0, 0, 0, 0, 0, 0, 0, 0], .bigEndian, []⟩
          [(f64 1, f64 2), (f64 3, f64 4)] = .ok (after, none)
      ∧ after.w = [] ++ typeField ++ body
      ∧ typeField.length = 4
      ∧ body.length = 4 + 21 * [(f64 1, f64 2), (f64 3, f64 4)].length
      ∧ unmarshalMultiPoint scanPointRecord .bigEndian body
          = .ok (some [(f64 1, f64 2), (f64 3, f64 4)], none) :=
  writeMultiPoint_unmarshalMultiPoint_round_trip scanPointRecord .bigEndian
    ⟨[0, 0, 0, 0, 0, 0, 0, 0, 0, 0, 0, 0, 0, 0, 0, 0], .bigEndian, []⟩
    [(f64 1, f64 2), (f64 3, f64 4)]
    (by
      intro o tail
      cases o <;>
        simp [scanPointRecord, orderByte, uint32Bytes, valueIn, bigEndianValue,
          littleEndianValue, byte, pointType])
    rfl (by decide) (by decide) (by decide)

/-- When the decoding loop returns an error, the multipoint it returns is `nil`. -/
theorem multiPointLoop_error_nil
    (scanPoint : List Byte → Except Fault (Point × Option Fault))
    (left : Nat) (data : List Byte) (result : List Point)
    (v : Option MultiPoint) (e : Fault)
    (h : multiPointLoop scanPoint data left result = .ok (v, some e)) : v = none := by
  induction left generalizing data result with
  | zero => simp [multiPointLoop] at h
  | succ left ih =>
    simp only [multiPointLoop, bind, Except.bind] at h
    cases hs : scanPoint data with
    | error f => simp [hs] at h
    | ok r =>
      obtain ⟨p, err⟩ := r
      cases err with
      | some f =>
        simp only [hs, Except.ok.injEq, Prod.mk.injEq] at h
        exact h.1.symm
      | none =>
        simp only [hs] at h
        cases hd : sliceFrom data 21 with
        | error f => simp [hd] at h
        | ok rest =>
          simp only [hd] at h
          exact ih rest (result ++ [p]) h

/-- When the first `k` records scan and are present in full and record `k`
does not scan, the decoding loop returns `nil` and the error of record `k`. -/
theorem multiPointLoop_first_failure
    (scanPoint : List Byte → Except Fault (Point × Option Fault))
    (k : Nat) (left : Nat) (data : List Byte) (result : List Point) (p : Point) (e : Fault)
    (hk : k < left) (hlen : 21 * k ≤ data.length)
    (hgood : ∀ i, i < k → ∃ q, scanPoint (data.drop (21 * i)) = .ok (q, none))
    (hbad : scanPoint (data.drop (21 * k)) = .ok (p, some e)) :
    multiPointLoop scanPoint data left result = .ok (none, some e) := by
  induction k generalizing left data result with
  | zero =>
    obtain ⟨left, rfl⟩ : ∃ m, left = m + 1 := ⟨left - 1, by omega⟩
    simp only [Nat.mul_zero, List.drop_zero] at hbad
    simp [multiPointLoop, hbad, bind, Except.bind]
  | succ k ih =>
    obtain ⟨left, rfl⟩ : ∃ m, left = m + 1 := ⟨left - 1, by omega⟩
    obtain ⟨q, hq⟩ := hgood 0 (by omega)
    simp only [Nat.mul_zero, List.drop_zero] at hq
    have hslice : sliceFrom data 21 = .ok (data.drop 21) := by
      simp only [sliceFrom]
      rw [if_pos (by omega)]
    simp only [multiPointLoop, hq, hslice, bind, Except.bind]
    apply ih left (data.drop 21) (result ++ [q]) (by omega) (by simp; omega)
    · intro i hi
      obtain ⟨r, hr⟩ := hgood (i + 1) (by omega)
      refine ⟨r, ?_⟩
      rw [List.drop_drop]
      rw [show 21 + 21 * i = 21 * (i + 1) by omega]
      exact hr
    · rw [List.drop_drop]
      rw [show 21 + 21 * k = 21 * (k + 1) by omega]
      exact hbad

/-- Claim C15: if `unmarshalMultiPoint` fails, it returns a nil multipoint
together with the error, never the points decoded before the failure: on fewer
than 4 bytes it returns `nil` and `ErrNotWKB`; whenever it returns an error the
multipoint is `nil`; and when the first `k` records scan (and are present in
full) and record `k`, one of the `num` counted, does not scan, it returns `nil`
and the error of that record. -/
theorem unmarshalMultiPoint_no_partial_result
    (scanPoint : List Byte → Except Fault (Point × Option Fault)) (order : byteOrder)
    (data : List Byte) :
    (data.length < 4 → unmarshalMultiPoint scanPoint order data = .ok (none, some .ErrNotWKB))
    ∧ (∀ (v : Option MultiPoint) (e : Fault),
        unmarshalMultiPoint scanPoint order data = .ok (v, some e) → v = none)
    ∧ (∀ (num k : Nat) (p : Point) (e : Fault),
        4 ≤ data.length → unmarshalUint32 order data = .ok num → k < num →
        4 + 21 * k ≤ data.length →
        (∀ i, i < k → ∃ q, scanPoint (data.drop (4 + 21 * i)) = .ok (q, none)) →
        scanPoint (data.drop (4 + 21 * k)) = .ok (p, some e) →
        unmarshalMultiPoint scanPoint order data = .ok (none, some e)) := by
  refine ⟨?_, ?_, ?_⟩
  · intro h
    simp [unmarshalMultiPoint, h]
  · intro v e h
    unfold unmarshalMultiPoint at h
    split_ifs at h with hlt
    · simp only [Except.ok.injEq, Prod.mk.injEq] at h
      exact h.1.symm
    · cases hn : unmarshalUint32 order data with
      | error f => simp [hn, bind, Except.bind] at h
      | ok num =>
        simp only [hn, bind, Except.bind] at h
        exact multiPointLoop_error_nil scanPoint num _ [] v e h
  · intro num k p e h4 hnum hk hlen hgood hbad
    have hnot : ¬ data.length < 4 := by omega
    simp only [unmarshalMultiPoint, hnot, if_false, hnum, bind, Except.bind]
    apply multiPointLoop_first_failure scanPoint k num (data.drop 4) [] p e hk
      (by simp; omega)
    · intro i hi
      obtain ⟨q, hq⟩ := hgood i hi
      exact ⟨q, by rw [List.drop_drop]; exact hq⟩
    · rw [List.drop_drop]; exact hbad

/-- Claim C15 at a concrete input: a big-endian count of 2, the record of the
point with coordinate patterns 1 and 2, and a second record whose type code is
2, not the point type: the result is `nil` with the error of the second
record. -/
theorem unmarshalMultiPoint_no_partial_result_witness :
    unmarshalMultiPoint scanPointRecord .bigEndian
        ([0, 0, 0, 2] ++ pointRecord .bigEndian (1, 2)
          ++ [0, 0, 0, 0, 2, 0, 0, 0, 0, 0, 0, 0, 0, 0, 0, 0, 0, 0, 0, 0, 0])
      = .ok (none, some .ErrIncorrectGeometry) :=
  (unmarshalMultiPoint_no_partial_result scanPointRecord .bigEndian
      ([0, 0, 0, 2] ++ pointRecord .bigEndian (1, 2)
        ++ [0, 0, 0, 0, 2, 0, 0, 0, 0, 0, 0, 0, 0, 0, 0, 0, 0, 0, 0, 0, 0])).2.2
    2 1 (0, 0) .ErrIncorrectGeometry (by decide) (by decide) (by decide) (by decide)
    (by
      intro i hi
      obtain rfl : i = 0 := by omega
      exact ⟨(1, 2), by decide⟩)
    (by decide)

/-! ## Claims about multipoints in package space -/

/-- Claim C16: the code at the failing inputs.  For multipoints of one point
each, `EqualsExact` returns the negation of what `Point.EqualsExact` returns
for the two points: `false` when the points are equal within the tolerance (so
`mp.EqualsExact(mp, t)` is `false`), `true` when they are not.  For a `g` with
fewer points than `mp` it indexes `g` out of range. -/
theorem equalsExact_negates_point_comparison
    (pointEqualsExact : Point → Point → Float64 → Bool) (p q : Point) (tolerance : Float64) :
    MultiPoint.EqualsExact pointEqualsExact [p] (.MultiPoint [q]) tolerance
        = .ok (!pointEqualsExact p q tolerance)
    ∧ MultiPoint.EqualsExact pointEqualsExact [p] (.MultiPoint []) tolerance
        = .error .indexOutOfRange := by
  constructor
  · cases h : pointEqualsExact p q tolerance <;>
      simp [MultiPoint.EqualsExact, MultiPoint.GeoJSONType, Geometry.GeoJSONType,
        equalsExactLoop, Geometry.assertMultiPoint, index, bind, Except.bind, h]
  · simp [MultiPoint.EqualsExact, MultiPoint.GeoJSONType, Geometry.GeoJSONType,
      equalsExactLoop, Geometry.assertMultiPoint, index, bind, Except.bind]

/-- Claim C17: the code at the failing input.  For the multipoint holding the
point `(1.0, 2.0)` twice, `UniquePoints` returns the multipoint as it is, with
two equal points. -/
theorem uniquePoints_keeps_duplicates :
    MultiPoint.UniquePoints [(f64 1, f64 2), (f64 1, f64 2)]
        = [(f64 1, f64 2), (f64 1, f64 2)]
    ∧ ¬ (MultiPoint.UniquePoints [(f64 1, f64 2), (f64 1, f64 2)]).Nodup := by
  decide

theorem equalsMultiPointLoop_spec (pointEquals : Point → Point → Bool) (multiPoint : MultiPoint)
    (points : List Point) (i : Nat) (h : i + points.length ≤ multiPoint.length) :
    ∃ b : Bool, equalsMultiPointLoop pointEquals multiPoint points i = .ok b
      ∧ (b = true ↔ ∀ (j : Nat) (v q : Point), points[j]? = some v →
          multiPoint[i + j]? = some q → pointEquals v q = true) := by
  induction points generalizing i with
  | nil => exact ⟨true, rfl, by simp⟩
  | cons v rest ih =>
    simp only [List.length_cons] at h
    have hi : i < multiPoint.length := by omega
    have hq : multiPoint[i]? = some multiPoint[i] := List.getElem?_eq_getElem hi
    by_cases hv : pointEquals v multiPoint[i] = true
    · obtain ⟨b, hb, hiff⟩ := ih (i + 1) (by omega)
      refine ⟨b, ?_, ?_⟩
      · simp [equalsMultiPointLoop, index, hq, hv, hb, bind, Except.bind]
      · rw [hiff]
        constructor
        · intro hall j w q hw hq2
          cases j with
          | zero =>
            simp only [List.getElem?_cons_zero, Option.some.injEq] at hw
            simp only [Nat.add_zero, hq, Option.some.injEq] at hq2
            subst hw; subst hq2; exact hv
          | succ j =>
            simp only [List.getElem?_cons_succ] at hw
            exact hall j w q hw (by rw [← hq2]; congr 1; omega)
        · intro hall j w q hw hq2
          exact hall (j + 1) w q (by simpa using hw) (by rw [← hq2]; congr 1; omega)
    · refine ⟨false, ?_, ?_⟩
      · simp [equalsMultiPointLoop, index, hq, hv, bind, Except.bind]
      · simp only [Bool.false_eq_true, false_iff, not_forall]
        exact ⟨0, v, multiPoint[i], by simp, by simp [hq], hv⟩

/-- Claim C18: `MultiPoint.EqualsMultiPoint(other)` returns, without indexing
`other` out of range, and it returns true if and only if the two multipoints
have the same length and, for every index `i`, the i-th point of `mp` Equals
the i-th point of `other`. -/
theorem equalsMultiPoint_iff (pointEquals : Point → Point → Bool) (mp other : MultiPoint) :
    ∃ b : Bool, MultiPoint.EqualsMultiPoint pointEquals mp other = .ok b
      ∧ (b = true ↔ mp.length = other.length
          ∧ ∀ (i : Nat) (h1 : i < mp.length) (h2 : i < other.length),
              pointEquals (mp.get ⟨i, h1⟩) (other.get ⟨i, h2⟩) = true) := by
  by_cases hlen : mp.length = other.length
  · obtain ⟨b, hb, hiff⟩ := equalsMultiPointLoop_spec pointEquals other mp 0 (by omega)
    refine ⟨b, by simp [MultiPoint.EqualsMultiPoint, MultiPoint.ToPointArray, hlen, hb], ?_⟩
    rw [hiff]
    constructor
    · intro hall
      refine ⟨hlen, fun i h1 h2 => hall i _ _ ?_ ?_⟩
      · exact List.getElem?_eq_getElem h1
      · simp [List.getElem?_eq_getElem h2]
    · rintro ⟨-, hall⟩ j v q hv hq
      simp only [Nat.zero_add] at hq
      obtain ⟨h1, rfl⟩ := List.getElem?_eq_some.mp hv
      obtain ⟨h2, rfl⟩ := List.getElem?_eq_some.mp hq
      exact hall j h1 h2
  · exact ⟨false, by simp [MultiPoint.EqualsMultiPoint, hlen], by simp [hlen]⟩

/-! ## Claims about bounds -/

theorem float64_le_iff (a b : Float64) :
    Float64.le a b = true
      ↔ Float64.isNaN a = false ∧ Float64.isNaN b = false ∧ Float64.key a ≤ Float64.key b := by
  simp [Float64.le, and_assoc]

theorem float64_le_refl (a : Float64) (h : Float64.isNaN a = false) : Float64.le a a = true :=
  (float64_le_iff a a).mpr ⟨h, h, Int.le_refl _⟩

theorem float64_le_trans {a b c : Float64} (h1 : Float64.le a b = true)
    (h2 : Float64.le b c = true) : Float64.le a c = true := by
  rw [float64_le_iff] at *
  exact ⟨h1.1, h2.2.1, Int.le_trans h1.2.2 h2.2.2⟩

theorem float64_le_total (a b : Float64) (ha : Float64.isNaN a = false)
    (hb : Float64.isNaN b = false) : Float64.le a b = true ∨ Float64.le b a = true := by
  rcases Int.le_total (Float64.key a) (Float64.key b) with h | h
  · exact Or.inl ((float64_le_iff a b).mpr ⟨ha, hb, h⟩)
  · exact Or.inr ((float64_le_iff b a).mpr ⟨hb, ha, h⟩)

theorem float64_not_le_quietNaN (a : Float64) : Float64.le a quietNaN = false := by
  have h : Float64.isNaN quietNaN = true := by decide
  simp [Float64.le, h]

theorem isMinOf_noNaN {r a c : Float64} (h : IsMinOf r a c) : Float64.isNaN r = false :=
  ((float64_le_iff r a).mp h.2.1).1

theorem isMaxOf_noNaN {r a c : Float64} (h : IsMaxOf r a c) : Float64.isNaN r = false :=
  ((float64_le_iff a r).mp h.2.1).2.1

/-- The instance `extendMinMax` does what is assumed of `Extend`. -/
theorem extendMinMax_extendsByMinMax : ExtendsByMinMax extendMinMax := by
  intro b p hmin hmax hp
  have key : ∀ a c : Float64, Float64.isNaN a = false → Float64.isNaN c = false →
      IsMinOf (if Float64.le a c then a else c) a c
      ∧ IsMaxOf (if Float64.le c a then a else c) a c := by
    intro a c ha hc
    constructor
    · by_cases h : Float64.le a c = true
      · simp only [h, if_true]
        exact ⟨Or.inl rfl, float64_le_refl a ha, h⟩
      · simp only [h, if_false]
        have h2 : Float64.le c a = true := by
          rcases float64_le_total a c ha hc with h3 | h3
          · exact absurd h3 h
          · exact h3
        exact ⟨Or.inr rfl, h2, float64_le_refl c hc⟩
    · by_cases h : Float64.le c a = true
      · simp only [h, if_true]
        exact ⟨Or.inl rfl, float64_le_refl a ha, h⟩
      · simp only [h, if_false]
        have h2 : Float64.le a c = true := by
          rcases float64_le_total a c ha hc with h3 | h3
          · exact h3
          · exact absurd h3 h
        exact ⟨Or.inr rfl, h2, float64_le_refl c hc⟩
  exact ⟨(key b.Min.1 p.1 hmin.1 hp.1).1, (key b.Min.2 p.2 hmin.2 hp.2).1,
    (key b.Max.1 p.1 hmax.1 hp.1).2, (key b.Max.2 p.2 hmax.2 hp.2).2⟩

/-- The loop of `Bound` keeps the rectangle around the points seen so far, with
each of its coordinates attained by one of them. -/
theorem foldl_extend_encloses (Extend : Bound → Point → Bound) (hExt : ExtendsByMinMax Extend)
    (rest seen : List Point) (b : Bound)
    (hmin : b.Min.noNaN) (hmax : b.Max.noNaN)
    (henc : b.Encloses seen) (hatt : b.AttainedIn seen) (hrest : ∀ p ∈ rest, p.noNaN) :
    (rest.foldl Extend b).Encloses (seen ++ rest)
      ∧ (rest.foldl Extend b).AttainedIn (seen ++ rest) := by
  induction rest generalizing seen b with
  | nil => simpa using ⟨henc, hatt⟩
  | cons p rest ih =>
    have hp : p.noNaN := hrest p (List.mem_cons_self _ _)
    obtain ⟨m1, m2, M1, M2⟩ := hExt b p hmin hmax hp
    have hstep := ih (seen ++ [p]) (Extend b p) ⟨isMinOf_noNaN m1, isMinOf_noNaN m2⟩
      ⟨isMaxOf_noNaN M1, isMaxOf_noNaN M2⟩ ?_ ?_
      (fun q hq => hrest q (List.mem_cons_of_mem _ hq))
    · simpa using hstep
    · intro q hq
      rcases List.mem_append.mp hq with hq | hq
      · obtain ⟨e1, e2, e3, e4⟩ := henc q hq
        exact ⟨float64_le_trans m1.2.1 e1, float64_le_trans e2 M1.2.1,
          float64_le_trans m2.2.1 e3, float64_le_trans e4 M2.2.1⟩
      · obtain rfl : q = p := by simpa using hq
        exact ⟨m1.2.2, M1.2.2, m2.2.2, M2.2.2⟩
    · obtain ⟨a1, a2, a3, a4⟩ := hatt
      refine ⟨?_, ?_, ?_, ?_⟩
      · rcases m1.1 with h | h
        · obtain ⟨q, hq, hqe⟩ := a1
          exact ⟨q, List.mem_append_left _ hq, h.trans hqe⟩
        · exact ⟨p, by simp, h⟩
      · rcases m2.1 with h | h
        · obtain ⟨q, hq, hqe⟩ := a2
          exact ⟨q, List.mem_append_left _ hq, h.trans hqe⟩
        · exact ⟨p, by simp, h⟩
      · rcases M1.1 with h | h
        · obtain ⟨q, hq, hqe⟩ := a3
          exact ⟨q, List.mem_append_left _ hq, h.trans hqe⟩
        · exact ⟨p, by simp, h⟩
      · rcases M2.1 with h | h
        · obtain ⟨q, hq, hqe⟩ := a4
          exact ⟨q, List.mem_append_left _ hq, h.trans hqe⟩
        · exact ⟨p, by simp, h⟩

/-- Claim C19, as stated, fails: for the multipoint of the one point
`(NaN, 0.0)` no rectangle has `Min <= p <= Max` for the point, whatever
`emptyBound` and `Extend` are, because a NaN is not `<=` anything. -/
theorem bound_of_nan_point_does_not_enclose :
    ¬ ∃ (emptyBound : Bound) (Extend : Bound → Point → Bound) (b : Bound),
        MultiPoint.Bound emptyBound Extend [(quietNaN, 0)] = .ok b
        ∧ b.Encloses [(quietNaN, 0)] := by
  rintro ⟨_, _, b, -, henc⟩
  have h := (henc (quietNaN, 0) (List.mem_singleton_self _)).1
  rw [float64_not_le_quietNaN] at h
  exact Bool.false_ne_true h

/-- Claim C19, amended: `MultiPoint.Bound` returns the empty bound for a
multipoint with no points; for every non-empty multipoint none of whose
coordinates is a NaN, with `Extend` growing a bound to the coordinate-wise
smaller `Min` and larger `Max`, it returns the smallest axis-aligned rectangle
around the points: each point `p` satisfies `Min <= p <= Max` coordinate-wise,
and each of the four bound coordinates is attained by some point of `mp`. -/
theorem bound_encloses_and_is_attained (emptyBound : Bound) (Extend : Bound → Point → Bound)
    (mp : MultiPoint) (hExt : ExtendsByMinMax Extend) :
    MultiPoint.Bound emptyBound Extend [] = .ok emptyBound
    ∧ (mp ≠ [] → (∀ p ∈ mp, p.noNaN) →
        ∃ b : Bound, MultiPoint.Bound emptyBound Extend mp = .ok b
          ∧ b.Encloses mp ∧ b.AttainedIn mp) := by
  refine ⟨rfl, ?_⟩
  intro hne hmp
  cases mp with
  | nil => exact absurd rfl hne
  | cons first rest =>
    have hf : first.noNaN := hmp first (List.mem_cons_self _ _)
    have hinv := foldl_extend_encloses Extend hExt (first :: rest) [first] ⟨first, first⟩ hf hf
      (by
        intro q hq
        obtain rfl : q = first := by simpa using hq
        exact ⟨float64_le_refl _ hf.1, float64_le_refl _ hf.1,
          float64_le_refl _ hf.2, float64_le_refl _ hf.2⟩)
      ⟨⟨first, by simp, rfl⟩, ⟨first, by simp, rfl⟩, ⟨first, by simp, rfl⟩,
        ⟨first, by simp, rfl⟩⟩
      hmp
    have hsub : ∀ q, q ∈ [first] ++ first :: rest → q ∈ first :: rest := by
      intro q hq
      rcases List.mem_append.mp hq with h | h
      · obtain rfl : q = first := by simpa using h
        exact List.mem_cons_self _ _
      · exact h
    refine ⟨(first :: rest).foldl Extend ⟨first, first⟩, ?_, ?_, ?_⟩
    · simp [MultiPoint.Bound, index, bind, Except.bind]
    · intro q hq
      exact hinv.1 q (List.mem_append_right _ hq)
    · obtain ⟨⟨q1, h1, e1⟩, ⟨q2, h2, e2⟩, ⟨q3, h3, e3⟩, ⟨q4, h4, e4⟩⟩ := hinv.2
      exact ⟨⟨q1, hsub q1 h1, e1⟩, ⟨q2, hsub q2 h2, e2⟩, ⟨q3, hsub q3 h3, e3⟩,
        ⟨q4, hsub q4 h4, e4⟩⟩

/-- Claim C19, amended, at a concrete input: the multipoint of `(1.0, 4.0)` and
`(3.0, 2.0)`, whose bound has `Min = (1.0, 2.0)` and `Max = (3.0, 4.0)`. -/
theorem bound_encloses_and_is_attained_witness :
    MultiPoint.Bound ⟨(0, 0), (0, 0)⟩ extendMinMax [(f64 1, f64 4), (f64 3, f64 2)]
        = .ok ⟨(f64 1, f64 2), (f64 3, f64 4)⟩
    ∧ ∃ b : Bound,
        MultiPoint.Bound ⟨(0, 0), (0, 0)⟩ extendMinMax [(f64 1, f64 4), (f64 3, f64 2)] = .ok b
          ∧ b.Encloses [(f64 1, f64 4), (f64 3, f64 2)]
          ∧ b.AttainedIn [(f64 1, f64 4), (f64 3, f64 2)] :=
  ⟨by decide,
   (bound_encloses_and_is_attained ⟨(0, 0), (0, 0)⟩ extendMinMax
      [(f64 1, f64 4), (f64 3, f64 2)] extendMinMax_extendsByMinMax).2
    (by decide)
    (by
      intro p hp
      simp only [List.mem_cons, List.mem_singleton, List.not_mem_nil, or_false] at hp
      rcases hp with rfl | rfl <;> exact ⟨by decide, by decide⟩)⟩

/-! ## Claims about the named predicates on polygon pairs -/

/-- Claim C20: for every two polygons A and B (A with a non-empty shell, B with
at least one ring), the matrix `computePolygon` produces from an empty matrix
matches exactly one of the four groups Disjoint, Touches, Overlaps,
Contains-or-Within-or-Equals, using the standard DE-9IM patterns of those
predicates and the spec's Matches rules. -/
theorem computePolygon_matches_exactly_one_group (env : Env)
    (a0 : Matrix) (ar : LineMatrix) (aholes : List LineMatrix)
    (shell : LineMatrix) (holes : List LineMatrix) :
    ∃ m : IntersectionMatrix,
      PolygonRelate.computePolygon env
          ⟨(a0 :: ar) :: aholes, .PolygonMatrix (shell :: holes)⟩ .New = .ok m
      ∧ ∃ groups : List Bool, m.predicateGroups = .ok groups ∧ groups.count true = 1 := by
  obtain ⟨s, hs, hcase⟩ := scanRings_state env a0 ar aholes shell holes
  refine ⟨applyState .New s, computePolygon_eq env _ _ _ s hs, ?_⟩
  rcases hcase with h | h | h <;> subst h
  · exact ⟨[false, false, false, true], by decide, by decide⟩
  · exact ⟨[false, false, true, false], by decide, by decide⟩
  · exact ⟨[true, false, false, false], by decide, by decide⟩

/-! ## Claims about the states of computePolygon -/

/-- Over holes, a scan that is already DISJOINT ends CROSSING when one of the
holes intersects the subject's shell and stays DISJOINT otherwise, whatever
`InPolygon` returns. -/
theorem scanRings_holes_from_disjoint (env : Env) (l0 : Matrix) (ls : LineMatrix)
    (ps : List LineMatrix) (holes : List LineMatrix) (i : Nat) :
    scanRings env ((l0 :: ls) :: ps) holes (i + 1) 2
      = .ok (if holes.any (env.IsIntersectionEdge (l0 :: ls)) then 1 else 2) := by
  induction holes generalizing i with
  | nil => rfl
  | cons h holes ih =>
    by_cases hE : env.IsIntersectionEdge (l0 :: ls) h = true
    · rw [scanRings_crossing env l0 ls ps h holes (i + 1) 2 hE]
      simp [hE]
    · have hE0 : env.IsIntersectionEdge (l0 :: ls) h = false := by simpa using hE
      rw [scanRings_hole_skip env l0 ls ps h holes i 2 hE0 (Or.inr rfl), ih (i + 1)]
      simp [hE0]

/-- Claim C21: for every subject polygon P with a non-empty shell and every
other polygon Q with at least one ring, `computePolygon` returns and the string
of the matrix it produces from an empty matrix is one of "2FF1FF212",
"212101212", "FF2FF1212"; each of the three literals is a valid pattern, so
`SetAtLeastString` returns no error for it on any matrix, and merged into an
empty matrix it reads back as itself. -/
theorem computePolygon_three_states (env : Env)
    (l0 : Matrix) (ls : LineMatrix) (ps : List LineMatrix)
    (shell : LineMatrix) (holes : List LineMatrix) :
    (∃ m : IntersectionMatrix,
      PolygonRelate.computePolygon env
          ⟨(l0 :: ls) :: ps, .PolygonMatrix (shell :: holes)⟩ .New = .ok m
      ∧ (m.ToString = "2FF1FF212" ∨ m.ToString = "212101212" ∨ m.ToString = "FF2FF1212"))
    ∧ (∀ im : IntersectionMatrix, ∀ s ∈ ["2FF1FF212", "212101212", "FF2FF1212"],
        ∃ merged : IntersectionMatrix, im.SetAtLeastString s = .ok merged)
    ∧ (∀ s ∈ ["2FF1FF212", "212101212", "FF2FF1212"],
        (IntersectionMatrix.New.SetAtLeastString s).map IntersectionMatrix.ToString = .ok s) := by
  refine ⟨?_, ?_, ?_⟩
  · obtain ⟨s, hs, hcase⟩ := scanRings_state env l0 ls ps shell holes
    refine ⟨applyState .New s, computePolygon_eq env _ _ _ s hs, ?_⟩
    rcases hcase with h | h | h <;> subst h
    · exact Or.inl (by decide)
    · exact Or.inr (Or.inl (by decide))
    · exact Or.inr (Or.inr (by decide))
  · intro im s hs
    simp only [List.mem_cons, List.mem_singleton, List.not_mem_nil, or_false] at hs
    rcases hs with rfl | rfl | rfl <;> exact ⟨_, rfl⟩
  · intro s hs
    simp only [List.mem_cons, List.mem_singleton, List.not_mem_nil, or_false] at hs
    rcases hs with rfl | rfl | rfl <;> decide

/-- Claim C23: when P's first shell vertex is not `InPolygon` of Q's shell ring
and Q's shell does not intersect P's shell, containment in Q's hole rings has
no effect and never stops the scan: the result from an empty matrix is the
CROSSING pattern "212101212" if some later ring of Q intersects P's shell and
the DISJOINT pattern "FF2FF1212" otherwise, whatever `InPolygon` returns for
the holes. -/
theorem outside_shell_holes_have_no_effect (env : Env)
    (l0 : Matrix) (ls : LineMatrix) (ps : List LineMatrix)
    (shell : LineMatrix) (holes : List LineMatrix)
    (hE : env.IsIntersectionEdge (l0 :: ls) shell = false)
    (hshell : env.InPolygon l0 shell = false) :
    (PolygonRelate.computePolygon env
        ⟨(l0 :: ls) :: ps, .PolygonMatrix (shell :: holes)⟩ .New).map
      IntersectionMatrix.ToString
      = .ok (if holes.any (env.IsIntersectionEdge (l0 :: ls)) then "212101212"
          else "FF2FF1212") := by
  have hscan : scanRings env ((l0 :: ls) :: ps) (shell :: holes) 0 (-1)
      = .ok (if holes.any (env.IsIntersectionEdge (l0 :: ls)) then 1 else 2) := by
    rw [scanRings_shell env l0 ls ps shell holes (-1) hE]
    simp only [hshell, Bool.false_eq_true, if_false]
    exact scanRings_holes_from_disjoint env l0 ls ps holes 0
  rw [computePolygon_eq env _ _ _ _ hscan]
  by_cases hany : holes.any (env.IsIntersectionEdge (l0 :: ls)) = true
  · simp only [hany, if_true]; decide
  · simp only [hany, if_false]; decide

/-- Claim C23 at a concrete input: the subject `sq 3 5` has its first vertex
outside the shell `sq 0 1` and inside the hole `sq 2 8` of the other polygon,
whose later ring `sq 4 6` crosses the subject's edges: the result is CROSSING. -/
theorem outside_shell_holes_have_no_effect_witness :
    (tableEnv [(sq 3 5, sq 4 6)] [(⟨f64 3, f64 3⟩, sq 2 8)]).IsIntersectionEdge
        (sq 3 5) (sq 0 1) = false
    ∧ (tableEnv [(sq 3 5, sq 4 6)] [(⟨f64 3, f64 3⟩, sq 2 8)]).InPolygon
        ⟨f64 3, f64 3⟩ (sq 0 1) = false
    ∧ (PolygonRelate.computePolygon
        (tableEnv [(sq 3 5, sq 4 6)] [(⟨f64 3, f64 3⟩, sq 2 8)])
        ⟨[sq 3 5], .PolygonMatrix [sq 0 1, sq 2 8, sq 4 6]⟩ .New).map
      IntersectionMatrix.ToString
      = .ok (if [sq 2 8, sq 4 6].any
            ((tableEnv [(sq 3 5, sq 4 6)] [(⟨f64 3, f64 3⟩, sq 2 8)]).IsIntersectionEdge
              (sq 3 5)) then "212101212"
          else "FF2FF1212") :=
  ⟨by decide, by decide,
   outside_shell_holes_have_no_effect
    (tableEnv [(sq 3 5, sq 4 6)] [(⟨f64 3, f64 3⟩, sq 2 8)])
    ⟨f64 3, f64 3⟩ [⟨f64 5, f64 3⟩, ⟨f64 5, f64 5⟩, ⟨f64 3, f64 5⟩, ⟨f64 3, f64 3⟩] []
    (sq 0 1) [sq 2 8, sq 4 6] (by decide) (by decide)⟩

/-- Claim C24: when `other` is a `PolygonMatrix` with zero rings,
`PolygonRelate.IntersectionMatrix` returns the matrix it was given with all
nine cells unchanged, for every subject polygon, also one with zero rings (the
subject's rings are not read: no index is out of range). -/
theorem zero_ring_other_returns_matrix_unchanged (env : Env) (P : PolygonMatrix)
    (im : IntersectionMatrix) :
    PolygonRelate.IntersectionMatrix env ⟨P, .PolygonMatrix []⟩ im = .ok im
    ∧ PolygonRelate.IntersectionMatrix env ⟨[], .PolygonMatrix []⟩ im = .ok im :=
  ⟨rfl, rfl⟩

/-! ## Claims about the stride of unmarshalMultiPoint -/

/-- When the decoding loop returns without error, what it returns is the
points it started with followed by one point per iteration, the i-th of them
scanned at offset `21*i` of the data. -/
theorem multiPointLoop_success
    (scanPoint : List Byte → Except Fault (Point × Option Fault))
    (left : Nat) (data : List Byte) (result : List Point) (v : Option MultiPoint)
    (h : multiPointLoop scanPoint data left result = .ok (v, none)) :
    ∃ pts : List Point, v = some (result ++ pts) ∧ pts.length = left
      ∧ ∀ i, i < left → ∃ p, pts[i]? = some p
          ∧ scanPoint (data.drop (21 * i)) = .ok (p, none) := by
  induction left generalizing data result with
  | zero =>
    simp only [multiPointLoop, Except.ok.injEq, Prod.mk.injEq, and_true] at h
    exact ⟨[], by simp [← h], rfl, fun i hi => absurd hi (Nat.not_lt_zero i)⟩
  | succ left ih =>
    simp only [multiPointLoop, bind, Except.bind] at h
    cases hs : scanPoint data with
    | error f => simp [hs] at h
    | ok r =>
      obtain ⟨p, err⟩ := r
      cases err with
      | some f => simp [hs] at h
      | none =>
        simp only [hs] at h
        cases hd : sliceFrom data 21 with
        | error f => simp [hd] at h
        | ok rest =>
          simp only [hd] at h
          have hrest : rest = data.drop 21 := by
            unfold sliceFrom at hd
            split_ifs at hd
            simp only [Except.ok.injEq] at hd
            exact hd.symm
          subst hrest
          obtain ⟨pts, hv, hlen, hpts⟩ := ih (data.drop 21) (result ++ [p]) h
          refine ⟨p :: pts, by simp [hv], by simp [hlen], ?_⟩
          intro i hi
          cases i with
          | zero => exact ⟨p, by simp, by simpa using hs⟩
          | succ i =>
            obtain ⟨q, hq, hscan⟩ := hpts i (by omega)
            refine ⟨q, by simpa using hq, ?_⟩
            rw [List.drop_drop] at hscan
            rw [show 21 * (i + 1) = 21 + 21 * i by omega]
            exact hscan

/-- Claim C22: when `unmarshalMultiPoint` succeeds on data holding a count
`num` followed by records, it returns exactly `num` points, the i-th being the
result of `scanPoint` on `data[4+21*i:]`, in input order: the cursor advances
by 21 bytes per element, whatever `scanPoint` is and whatever it read. -/
theorem unmarshalMultiPoint_fixed_stride
    (scanPoint : List Byte → Except Fault (Point × Option Fault)) (order : byteOrder)
    (data : List Byte) (v : Option MultiPoint)
    (h : unmarshalMultiPoint scanPoint order data = .ok (v, none)) :
    ∃ (num : Nat) (mp : MultiPoint), unmarshalUint32 order data = .ok num
      ∧ v = some mp ∧ mp.length = num
      ∧ ∀ i, i < num → ∃ p, mp[i]? = some p
          ∧ scanPoint (data.drop (4 + 21 * i)) = .ok (p, none) := by
  unfold unmarshalMultiPoint at h
  split_ifs at h with hlt
  · simp at h
  · cases hn : unmarshalUint32 order data with
    | error f => simp [hn, bind, Except.bind] at h
    | ok num =>
      simp only [hn, bind, Except.bind] at h
      obtain ⟨pts, hv, hlen, hpts⟩ := multiPointLoop_success scanPoint num _ [] v h
      refine ⟨num, pts, rfl, by simpa using hv, hlen, ?_⟩
      intro i hi
      obtain ⟨p, hp, hscan⟩ := hpts i hi
      exact ⟨p, hp, by rw [List.drop_drop] at hscan; exact hscan⟩

/-- Claim C22 at a concrete input: a big-endian count of 2 and the records of
the points with coordinate patterns `(1, 2)` and `(3, 4)`. -/
theorem unmarshalMultiPoint_fixed_stride_witness :
    ∃ (num : Nat) (mp : MultiPoint),
      unmarshalUint32 .bigEndian
          ([0, 0, 0, 2] ++ pointRecord .bigEndian (1, 2) ++ pointRecord .bigEndian (3, 4))
        = .ok num
      ∧ some [((1 : Float64), (2 : Float64)), (3, 4)] = some mp ∧ mp.length = num
      ∧ ∀ i, i < num → ∃ p, mp[i]? = some p
          ∧ scanPointRecord (List.drop (4 + 21 * i)
              ([0, 0, 0, 2] ++ pointRecord .bigEndian (1, 2) ++ pointRecord .bigEndian (3, 4)))
            = .ok (p, none) :=
  unmarshalMultiPoint_fixed_stride scanPointRecord .bigEndian
    ([0, 0, 0, 2] ++ pointRecord .bigEndian (1, 2) ++ pointRecord .bigEndian (3, 4))
    (some [(1, 2), (3, 4)]) (by decide)

/-! ## Claims about decoding from a reader -/

theorem ReadFull_enough (r : Reader) (buf : List Byte) (h : buf.length ≤ r.length) :
    ReadFull r buf = ⟨r.drop buf.length, r.take buf.length, (), none⟩ := by
  simp [ReadFull, h]

theorem ReadFull_short (r : Reader) (buf : List Byte) (h : r.length < buf.length) :
    ∃ (after : Reader) (bufAfter : List Byte) (err : Fault),
      ReadFull r buf = ⟨after, bufAfter, (), some err⟩ := by
  have hnot : ¬ buf.length ≤ r.length := by omega
  by_cases h0 : r.length = 0
  · exact ⟨[], buf, .EOF, by unfold ReadFull; rw [if_neg hnot, if_pos h0]⟩
  · exact ⟨[], r ++ buf.drop r.length, .ErrUnexpectedEOF, by
      unfold ReadFull; rw [if_neg hnot, if_neg h0]⟩

theorem uint64_of_eight (order : byteOrder) (bs : List Byte) (h : bs.length = 8) :
    (if order = .littleEndian then LittleEndian.Uint64 bs else BigEndian.Uint64 bs)
      = .ok (valueIn order bs) := by
  have h8 : 8 ≤ bs.length := by omega
  have ht : bs.take 8 = bs := List.take_of_length_le (by omega)
  cases order
  · simp [bigEndian_Uint64_eq h8, ht, valueIn]
  · simp [littleEndian_Uint64_eq h8, ht, valueIn]

/-- The loop body of `readPoint` on a filled 8-byte buffer: one coordinate is
decoded and stored. -/
theorem readPointLoop_step (order : byteOrder) (left i : Nat) (r : Reader) (buf : List Byte)
    (p : Point) (hbuf : buf.length = 8) (h : 8 ≤ r.length) :
    readPointLoop order (left + 1) i r buf p
      = (p.setIndex i (valueIn order (r.take 8))).bind
          fun q => readPointLoop order left (i + 1) (r.drop 8) (r.take 8) q := by
  have r1 := ReadFull_enough r buf (by omega)
  rw [hbuf] at r1
  have l1 : (r.take 8).length = 8 := by simp; omega
  have hu := uint64_of_eight order _ l1
  cases order
  · simp only [reduceCtorEq, if_false] at hu
    simp only [readPointLoop, r1, reduceCtorEq, if_false, hu, bind, Except.bind, Float64frombits]
  · simp only [if_true] at hu
    simp only [readPointLoop, r1, if_true, hu, bind, Except.bind, Float64frombits]

theorem readPointLoop_fail (order : byteOrder) (left i : Nat) (r : Reader) (buf : List Byte)
    (p : Point) (h : r.length < buf.length) :
    ∃ (after : Reader) (bufAfter : List Byte) (err : Fault),
      readPointLoop order (left + 1) i r buf p = .ok ⟨after, bufAfter, (0, 0), some err⟩ := by
  obtain ⟨after, bufAfter, err, r1⟩ := ReadFull_short r buf h
  exact ⟨after, bufAfter, err, by simp only [readPointLoop, r1]⟩

/-- Claim C25: for each byte order and every reader whose remaining content is
a byte sequence `s`, `readPoint` called with an 8-byte scratch buffer returns
the same point as `unmarshalPoint(order, s)` when `s` has at least 16 bytes,
leaving the reader 16 bytes further, and returns an error with the zero point
when `s` has fewer than 16 bytes. -/
theorem readPoint_agrees_with_unmarshalPoint (order : byteOrder) (s : Reader)
    (buf : List Byte) (hbuf : buf.length = 8) :
    (16 ≤ s.length → ∃ (p : Point) (bufAfter : List Byte),
        unmarshalPoint order s = .ok (p, none)
        ∧ readPoint s order buf = .ok ⟨s.drop 16, bufAfter, p, none⟩)
    ∧ (s.length < 16 → ∃ (after : Reader) (bufAfter : List Byte) (err : Fault),
        readPoint s order buf = .ok ⟨after, bufAfter, (0, 0), some err⟩) := by
  constructor
  · intro h16
    refine ⟨pointAt order s, (s.drop 8).take 8, unmarshalPoint_eq order h16, ?_⟩
    have l1 : (s.take 8).length = 8 := by simp; omega
    rw [readPoint, readPointLoop_step order 1 0 s buf _ hbuf (by omega)]
    simp only [Point.setIndex, if_true, Except.bind]
    rw [readPointLoop_step order 0 1 (s.drop 8) (s.take 8) _ l1 (by simp; omega)]
    simp [Point.setIndex, Except.bind, readPointLoop, pointAt]
  · intro hlt
    by_cases h8 : 8 ≤ s.length
    · have l1 : (s.take 8).length = 8 := by simp; omega
      obtain ⟨after, bufAfter, err, hfail⟩ :=
        readPointLoop_fail order 0 1 (s.drop 8) (s.take 8)
          (valueIn order (s.take 8), 0) (by simp; omega)
      refine ⟨after, bufAfter, err, ?_⟩
      rw [readPoint, readPointLoop_step order 1 0 s buf _ hbuf h8]
      simp only [Point.setIndex, if_true, Except.bind]
      exact hfail
    · obtain ⟨after, bufAfter, err, hfail⟩ :=
        readPointLoop_fail order 1 0 s buf (0, 0) (by omega)
      exact ⟨after, bufAfter, err, hfail⟩

/-- Claim C25 at a concrete input: a reader over 17 bytes, read in little
endian. -/
theorem readPoint_agrees_with_unmarshalPoint_witness :
    (∃ (p : Point) (bufAfter : List Byte),
        unmarshalPoint .littleEndian [1, 0, 0, 0, 0, 0, 0, 0, 2, 0, 0, 0, 0, 0, 0, 0, 9]
          = .ok (p, none)
        ∧ readPoint [1, 0, 0, 0, 0, 0, 0, 0, 2, 0, 0, 0, 0, 0, 0, 0, 9] .littleEndian
            [0, 0, 0, 0, 0, 0, 0, 0]
          = .ok ⟨List.drop 16 [1, 0, 0, 0, 0, 0, 0, 0, 2, 0, 0, 0, 0, 0, 0, 0, 9],
              bufAfter, p, none⟩)
    ∧ readPoint [1, 0, 0, 0, 0, 0, 0, 0, 2, 0, 0, 0, 0, 0, 0, 0, 9] .littleEndian
        [0, 0, 0, 0, 0, 0, 0, 0] = .ok ⟨[9], [2, 0, 0, 0, 0, 0, 0, 0], (1, 2), none⟩ :=
  ⟨(readPoint_agrees_with_unmarshalPoint .littleEndian
      [1, 0, 0, 0, 0, 0, 0, 0, 2, 0, 0, 0, 0, 0, 0, 0, 9] [0, 0, 0, 0, 0, 0, 0, 0] rfl).1
      (by decide),
   by decide⟩

/-- Elements that read are passed by the loop of `readMultiPoint`: their points
are appended and the loop goes on from where they end. -/
theorem readMultiPointLoop_elements
    (readByteOrderType : Reader → List Byte → Except Fault (Read (byteOrder × Nat)))
    (r : Reader) (buf : List Byte) (k : Nat) (pts : List Point)
    (after : Reader) (bufAfter : List Byte)
    (h : ReadsElements readByteOrderType r buf k pts after bufAfter)
    (left : Nat) (result : List Point) :
    readMultiPointLoop readByteOrderType (k + left) r buf result
      = readMultiPointLoop readByteOrderType left after bufAfter (result ++ pts) := by
  induction h generalizing result with
  | done r buf => simp
  | next r buf header point n pts after bufAfter hh herr htyp hp hperr _ ih =>
    rw [show n + 1 + left = (n + left) + 1 by omega]
    simp only [readMultiPointLoop, hh, herr, htyp, hp, hperr, bind, Except.bind, ne_eq,
      not_true_eq_false, if_false]
    rw [ih]
    simp

/-- What the loop of `readMultiPoint` returns: with an error, a nil multipoint;
without, the points it started with followed by those of `left` elements that
read. -/
theorem readMultiPointLoop_result
    (readByteOrderType : Reader → List Byte → Except Fault (Read (byteOrder × Nat)))
    (left : Nat) (r : Reader) (buf : List Byte) (result : List Point)
    (res : Read (Option MultiPoint))
    (h : readMultiPointLoop readByteOrderType left r buf result = .ok res) :
    (res.err ≠ none → res.value = none)
    ∧ (res.err = none → ∃ pts : List Point, res.value = some (result ++ pts)
        ∧ pts.length = left
        ∧ ReadsElements readByteOrderType r buf left pts res.r res.buf) := by
  induction left generalizing r buf result with
  | zero =>
    simp only [readMultiPointLoop, Except.ok.injEq] at h
    subst h
    exact ⟨fun hne => absurd rfl hne, fun _ => ⟨[], by simp, rfl, .done r buf⟩⟩
  | succ left ih =>
    simp only [readMultiPointLoop, bind, Except.bind] at h
    cases hh : readByteOrderType r buf with
    | error f => simp [hh] at h
    | ok header =>
      simp only [hh] at h
      cases herr : header.err with
      | some e =>
        simp only [herr, Except.ok.injEq] at h
        subst h
        exact ⟨fun _ => rfl, fun hn => by simp at hn⟩
      | none =>
        simp only [herr] at h
        by_cases htyp : header.value.2 = pointType
        · simp only [htyp, ne_eq, not_true_eq_false, if_false] at h
          cases hp : readPoint header.r header.value.1 header.buf with
          | error f => simp [hp] at h
          | ok point =>
            simp only [hp] at h
            cases hperr : point.err with
            | some e =>
              simp only [hperr, Except.ok.injEq] at h
              subst h
              exact ⟨fun _ => rfl, fun hn => by simp at hn⟩
            | none =>
              simp only [hperr] at h
              obtain ⟨h1, h2⟩ := ih point.r point.buf (result ++ [point.value]) h
              refine ⟨h1, fun hn => ?_⟩
              obtain ⟨pts, hv, hlen, hel⟩ := h2 hn
              exact ⟨point.value :: pts, by simp [hv], by simp [hlen],
                .next r buf header point left pts res.r res.buf hh herr htyp hp hperr hel⟩
        · simp only [ne_eq, htyp, not_false_eq_true, if_true, Except.ok.injEq] at h
          subst h
          exact ⟨fun _ => rfl, fun hn => by simp at hn⟩

/-- Claim C26: `readMultiPoint`, having read the count `num`, fails with a nil
multipoint and an error whenever the count does not read, or, after some
elements that read, the header of the next of the `num` elements does not read,
or names a geometry type other than point, or its point does not read;
whenever it returns an error the multipoint is nil; and when it succeeds the
result has exactly `num` points in stream order, each decoded with its own
element's byte order. -/
theorem readMultiPoint_fails_or_reads_all
    (readUint32 : Reader → byteOrder → List Byte → Except Fault (Read Nat))
    (readByteOrderType : Reader → List Byte → Except Fault (Read (byteOrder × Nat)))
    (r : Reader) (order : byteOrder) (buf : List Byte) (count : Read Nat)
    (hbuf : 4 ≤ buf.length) (hcount : readUint32 r order (buf.take 4) = .ok count) :
    (∀ err, count.err = some err →
        readMultiPoint readUint32 readByteOrderType r order buf
          = .ok ⟨count.r, count.buf ++ buf.drop 4, none, some err⟩)
    ∧ (∀ (k : Nat) (pts : List Point) (rk : Reader) (bufk : List Byte)
          (header : Read (byteOrder × Nat)),
        count.err = none → k < count.value →
        ReadsElements readByteOrderType count.r (count.buf ++ buf.drop 4) k pts rk bufk →
        readByteOrderType rk bufk = .ok header →
        (∀ err, header.err = some err →
            readMultiPoint readUint32 readByteOrderType r order buf
              = .ok ⟨header.r, header.buf, none, some err⟩)
        ∧ (header.err = none → header.value.2 ≠ pointType →
            readMultiPoint readUint32 readByteOrderType r order buf
              = .ok ⟨header.r, header.buf, none,
                  some (.errorsNew "expect multipoint to contains points, did not find a point")⟩)
        ∧ (∀ (point : Read Point) (err : Fault), header.err = none →
            header.value.2 = pointType →
            readPoint header.r header.value.1 header.buf = .ok point →
            point.err = some err →
            readMultiPoint readUint32 readByteOrderType r order buf
              = .ok ⟨point.r, point.buf, none, some err⟩))
    ∧ (∀ res : Read (Option MultiPoint),
        readMultiPoint readUint32 readByteOrderType r order buf = .ok res →
        (res.err ≠ none → res.value = none)
        ∧ (res.err = none → count.err = none ∧ ∃ pts : List Point,
            res.value = some pts ∧ pts.length = count.value
            ∧ ReadsElements readByteOrderType count.r (count.buf ++ buf.drop 4)
                count.value pts res.r res.buf)) := by
  have hnot : ¬ buf.length < 4 := by omega
  refine ⟨?_, ?_, ?_⟩
  · intro err herr
    simp [readMultiPoint, hnot, hcount, herr, bind, Except.bind]
  · intro k pts rk bufk header hcerr hk hel hh
    obtain ⟨m, hm⟩ : ∃ m, count.value = k + (m + 1) := ⟨count.value - k - 1, by omega⟩
    have hloop : readMultiPoint readUint32 readByteOrderType r order buf
        = readMultiPointLoop readByteOrderType (m + 1) rk bufk ([] ++ pts) := by
      simp only [readMultiPoint, hnot, if_false, hcount, hcerr, bind, Except.bind]
      rw [hm]
      exact readMultiPointLoop_elements readByteOrderType _ _ k pts rk bufk hel (m + 1) []
    refine ⟨?_, ?_, ?_⟩
    · intro err herr
      rw [hloop]
      simp [readMultiPointLoop, hh, herr, bind, Except.bind]
    · intro herr htyp
      rw [hloop]
      simp only [readMultiPointLoop, hh, herr, bind, Except.bind, ne_eq, htyp,
        not_false_eq_true, if_true]
    · intro point err herr htyp hp hperr
      rw [hloop]
      simp [readMultiPointLoop, hh, herr, htyp, hp, hperr, bind, Except.bind]
  · intro res hres
    simp only [readMultiPoint, hnot, if_false, hcount, bind, Except.bind] at hres
    cases hcerr : count.err with
    | some e =>
      simp only [hcerr, Except.ok.injEq] at hres
      subst hres
      exact ⟨fun _ => rfl, fun hn => by simp at hn⟩
    | none =>
      simp only [hcerr] at hres
      obtain ⟨h1, h2⟩ := readMultiPointLoop_result readByteOrderType _ _ _ [] res hres
      refine ⟨h1, fun hn => ⟨rfl, ?_⟩⟩
      obtain ⟨pts, hv, hlen, hel⟩ := h2 hn
      exact ⟨pts, by simpa using hv, hlen, hel⟩

/-- Claim C26 at a concrete input: from `twoPointStream`, with an 8-byte
scratch buffer, both points are read, the first in big endian and the second
in little endian, and the reader is left at the last byte. -/
theorem readMultiPoint_fails_or_reads_all_witness :
    readMultiPoint readUint32Stream readByteOrderTypeStream twoPointStream .bigEndian
        [0, 0, 0, 0, 0, 0, 0, 0]
      = .ok ⟨[7], [4, 0, 0, 0, 0, 0, 0, 0], some [(1, 2), (3, 4)], none⟩
    ∧ ∃ pts : List Point, some [((1 : Float64), (2 : Float64)), (3, 4)] = some pts
        ∧ pts.length = 2
        ∧ ReadsElements readByteOrderTypeStream (List.drop 4 twoPointStream)
            ([0, 0, 0, 2] ++ List.drop 4 [0, 0, 0, 0, 0, 0, 0, 0]) 2 pts
            [7] [4, 0, 0, 0, 0, 0, 0, 0] :=
  ⟨by decide,
   ((readMultiPoint_fails_or_reads_all readUint32Stream readByteOrderTypeStream twoPointStream
      .bigEndian [0, 0, 0, 0, 0, 0, 0, 0]
      ⟨List.drop 4 twoPointStream, [0, 0, 0, 2], 2, none⟩ (by decide) (by decide)).2.2
      ⟨[7], [4, 0, 0, 0, 0, 0, 0, 0], some [(1, 2), (3, 4)], none⟩ (by decide)).2 rfl |>.2⟩

/-! ## Claims about the symmetry of the polygon strategy -/

/-- When the subject's first shell vertex is not `InPolygon` of the other
polygon's shell, unless the two shells intersect, the scan ends CROSSING if
some ring of the other polygon intersects the subject's shell and DISJOINT
otherwise. -/
theorem scanRings_without_containment (env : Env) (l0 : Matrix) (ls : LineMatrix)
    (ps : List LineMatrix) (shell : LineMatrix) (holes : List LineMatrix)
    (h : env.IsIntersectionEdge (l0 :: ls) shell = true ∨ env.InPolygon l0 shell = false) :
    scanRings env ((l0 :: ls) :: ps) (shell :: holes) 0 (-1)
      = .ok (if (shell :: holes).any (env.IsIntersectionEdge (l0 :: ls)) then 1 else 2) := by
  by_cases hE : env.IsIntersectionEdge (l0 :: ls) shell = true
  · rw [scanRings_crossing env l0 ls ps shell holes 0 (-1) hE]
    simp [hE]
  · have hE0 : env.IsIntersectionEdge (l0 :: ls) shell = false := by simpa using hE
    have hin : env.InPolygon l0 shell = false := by
      rcases h with h | h
      · exact absurd h hE
      · exact h
    rw [scanRings_shell env l0 ls ps shell holes (-1) hE0]
    simp only [hin, Bool.false_eq_true, if_false]
    rw [scanRings_holes_from_disjoint env l0 ls ps holes 0]
    simp [hE0]

/-- Claim C1, amended: for polygons A and B, each with a non-empty shell ring,
such that the first shell vertex of each is not `InPolygon` of the other's
shell ring unless `IsIntersectionEdge` of its shell and the other's shell is
true, the transpose of the matrix `PolygonRelate{A, other: B}` computes from an
empty matrix equals the matrix `PolygonRelate{B, other: A}` computes from an
empty matrix exactly when `IsIntersectionEdge` finds a ring of B that meets A's
shell if and only if it finds a ring of A that meets B's shell. -/
theorem symmetry_iff_rings_intersect_alike (env : Env)
    (a0 : Matrix) (ar : LineMatrix) (aholes : List LineMatrix)
    (b0 : Matrix) (br : LineMatrix) (bholes : List LineMatrix)
    (hA : env.IsIntersectionEdge (a0 :: ar) (b0 :: br) = true
      ∨ env.InPolygon a0 (b0 :: br) = false)
    (hB : env.IsIntersectionEdge (b0 :: br) (a0 :: ar) = true
      ∨ env.InPolygon b0 (a0 :: ar) = false) :
    ((PolygonRelate.IntersectionMatrix env
          ⟨(a0 :: ar) :: aholes, .PolygonMatrix ((b0 :: br) :: bholes)⟩ .New).map
        IntersectionMatrix.Transpose
      = PolygonRelate.IntersectionMatrix env
          ⟨(b0 :: br) :: bholes, .PolygonMatrix ((a0 :: ar) :: aholes)⟩ .New)
    ↔ (((b0 :: br) :: bholes).any (env.IsIntersectionEdge (a0 :: ar))
        = ((a0 :: ar) :: aholes).any (env.IsIntersectionEdge (b0 :: br))) := by
  rw [intersectionMatrix_polygon, intersectionMatrix_polygon,
    computePolygon_eq env _ _ _ _ (scanRings_without_containment env a0 ar aholes _ bholes hA),
    computePolygon_eq env _ _ _ _ (scanRings_without_containment env b0 br bholes _ aholes hB)]
  cases ((b0 :: br) :: bholes).any (env.IsIntersectionEdge (a0 :: ar)) <;>
    cases ((a0 :: ar) :: aholes).any (env.IsIntersectionEdge (b0 :: br)) <;> decide

/-- Claim C1, amended, at concrete inputs.  First: the squares `sq 0 2` and
`sq 1 3`, whose edges cross and of which the second has its first vertex inside
the first: both calls give CROSSING and the equation holds.  Second: the
square `sq 3 5` and the polygon of the rings `sq 0 1` and `sq 4 6`, of which
only the second ring crosses the square: the shells do not intersect, one call
gives CROSSING, the other DISJOINT, and the equation fails. -/
theorem symmetry_iff_rings_intersect_alike_witness :
    ((tableEnv [(sq 0 2, sq 1 3)] [(⟨f64 1, f64 1⟩, sq 0 2)]).IsIntersectionEdge
        (sq 1 3) (sq 0 2) = true
      ∧ (tableEnv [(sq 0 2, sq 1 3)] [(⟨f64 1, f64 1⟩, sq 0 2)]).InPolygon
          ⟨f64 1, f64 1⟩ (sq 0 2) = true
      ∧ (PolygonRelate.IntersectionMatrix
            (tableEnv [(sq 0 2, sq 1 3)] [(⟨f64 1, f64 1⟩, sq 0 2)])
            ⟨[sq 0 2], .PolygonMatrix [sq 1 3]⟩ .New).map IntersectionMatrix.Transpose
          = PolygonRelate.IntersectionMatrix
            (tableEnv [(sq 0 2, sq 1 3)] [(⟨f64 1, f64 1⟩, sq 0 2)])
            ⟨[sq 1 3], .PolygonMatrix [sq 0 2]⟩ .New)
    ∧ ((tableEnv [(sq 3 5, sq 4 6)] []).InPolygon ⟨f64 3, f64 3⟩ (sq 0 1) = false
      ∧ (tableEnv [(sq 3 5, sq 4 6)] []).InPolygon ⟨f64 0, f64 0⟩ (sq 3 5) = false
      ∧ (PolygonRelate.IntersectionMatrix (tableEnv [(sq 3 5, sq 4 6)] [])
            ⟨[sq 3 5], .PolygonMatrix [sq 0 1, sq 4 6]⟩ .New).map IntersectionMatrix.Transpose
          ≠ PolygonRelate.IntersectionMatrix (tableEnv [(sq 3 5, sq 4 6)] [])
            ⟨[sq 0 1, sq 4 6], .PolygonMatrix [sq 3 5]⟩ .New) :=
  ⟨⟨by decide, by decide,
    (symmetry_iff_rings_intersect_alike
      (tableEnv [(sq 0 2, sq 1 3)] [(⟨f64 1, f64 1⟩, sq 0 2)])
      ⟨f64 0, f64 0⟩ [⟨f64 2, f64 0⟩, ⟨f64 2, f64 2⟩, ⟨f64 0, f64 2⟩, ⟨f64 0, f64 0⟩] []
      ⟨f64 1, f64 1⟩ [⟨f64 3, f64 1⟩, ⟨f64 3, f64 3⟩, ⟨f64 1, f64 3⟩, ⟨f64 1, f64 1⟩] []
      (Or.inl (by decide)) (Or.inl (by decide))).mpr (by decide)⟩,
   ⟨by decide, by decide,
    fun heq => absurd
      ((symmetry_iff_rings_intersect_alike (tableEnv [(sq 3 5, sq 4 6)] [])
        ⟨f64 3, f64 3⟩ [⟨f64 5, f64 3⟩, ⟨f64 5, f64 5⟩, ⟨f64 3, f64 5⟩, ⟨f64 3, f64 3⟩] []
        ⟨f64 0, f64 0⟩ [⟨f64 1, f64 0⟩, ⟨f64 1, f64 1⟩, ⟨f64 0, f64 1⟩, ⟨f64 0, f64 0⟩]
        [sq 4 6]
        (Or.inr (by decide)) (Or.inr (by decide))).mp heq)
      (by decide)⟩⟩

end Geoos
